import Mathlib

/-!
Verification development for the deep-research pipeline
(`src/deep_research.py`).

The development shallowly embeds the parts of the program that the
specification talks about:

* a model of JSON values (`JValue`), of Python `json.dumps` with its
  default options (`dumps`), and of Python `json.loads` (`loads`),
  written to follow CPython's `json/decoder.py` and `json/encoder.py`;
* the two regular-expression searches used by `_extract_json`
  (`findFencedBlock` for the fenced-code-block pattern and
  `braceSearch` for the greedy brace pattern), implemented directly
  with the backtracking semantics of the Python `re` module for those
  two concrete patterns;
* `_extract_json` itself (`extractJson`);
* the six pipeline steps and `conduct_research`, with the
  text-generation service call modelled as an `Except Unit (List Char)`
  input (the `.error` case is the service call raising), and the
  in-memory registries modelled as association lists with Python
  `dict` assignment semantics (`dictUpd`).

Model boundaries (documented where they arise): Python strings are
modelled as `List Char` (Unicode scalar values; a lone surrogate
produced by a `\uXXXX` escape is represented by U+FFFD), JSON numbers
with a fraction or exponent are represented exactly as
`mantissa * 10 ^ exponent` instead of as IEEE doubles, and `str()` of
a non-string value (used only inside f-string prompt text and default
messages) is a best-effort rendering `pyStr`.
-/

namespace DeepResearch

/-- The whitespace class of the Python `re` module for `str` patterns
(the set matched by `\s`, which agrees with `str.isspace`). -/
def isPyWs (c : Char) : Bool :=
  c.toNat = 32 || (9 ≤ c.toNat && c.toNat ≤ 13) ||
  (28 ≤ c.toNat && c.toNat ≤ 31) || c.toNat = 0x85 || c.toNat = 0xa0 ||
  c.toNat = 0x1680 || (0x2000 ≤ c.toNat && c.toNat ≤ 0x200a) ||
  c.toNat = 0x2028 || c.toNat = 0x2029 || c.toNat = 0x202f ||
  c.toNat = 0x205f || c.toNat = 0x3000

/-- JSON whitespace, the class of `json.decoder.WHITESPACE`
(`[ \t\n\r]*`): only space, tab, newline and carriage return. -/
def isJWs (c : Char) : Bool :=
  c = ' ' || c = '\t' || c = '\n' || c = '\r'

/-- Decimal digit test (`\d` of the number regex, ASCII since the JSON
number grammar is ASCII). -/
def isDig (c : Char) : Bool :=
  48 ≤ c.toNat && c.toNat ≤ 57

def digVal (c : Char) : Nat := c.toNat - 48

/-- A Python value that can result from `json.loads`: the codomain of
the extraction step.  Strings are lists of Unicode scalar values; an
object is the association list of a Python `dict` in insertion order.
A JSON number without fraction and exponent is an `int` (`num`); one
with a fraction or exponent is a float, represented exactly by the
rational `m * 10 ^ e` that the literal denotes (`fnum m e`); the
Python extensions `NaN`, `Infinity` and `-Infinity` are `nan` and
`inf`. -/
inductive JValue where
  | null : JValue
  | bool (b : Bool) : JValue
  | num (n : Int) : JValue
  | fnum (m : Int) (e : Int) : JValue
  | nan : JValue
  | inf (neg : Bool) : JValue
  | str (s : List Char) : JValue
  | arr (xs : List JValue) : JValue
  | obj (ps : List (List Char × JValue)) : JValue
deriving Repr

mutual

def decEqJ : (a b : JValue) → Decidable (a = b)
  | .null, .null => isTrue rfl
  | .bool a, .bool b =>
    match decEq a b with
    | isTrue h => isTrue (by rw [h])
    | isFalse h => isFalse (fun e => h (by injection e))
  | .num a, .num b =>
    match decEq a b with
    | isTrue h => isTrue (by rw [h])
    | isFalse h => isFalse (fun e => h (by injection e))
  | .fnum a c, .fnum b d =>
    match decEq a b, decEq c d with
    | isTrue h, isTrue h2 => isTrue (by rw [h, h2])
    | isFalse h, _ => isFalse (fun e => h (by injection e))
    | _, isFalse h => isFalse (fun e => h (by injection e))
  | .nan, .nan => isTrue rfl
  | .inf a, .inf b =>
    match decEq a b with
    | isTrue h => isTrue (by rw [h])
    | isFalse h => isFalse (fun e => h (by injection e))
  | .str a, .str b =>
    match decEq a b with
    | isTrue h => isTrue (by rw [h])
    | isFalse h => isFalse (fun e => h (by injection e))
  | .arr a, .arr b =>
    match decEqJL a b with
    | isTrue h => isTrue (by rw [h])
    | isFalse h => isFalse (fun e => h (by injection e))
  | .obj a, .obj b =>
    match decEqJP a b with
    | isTrue h => isTrue (by rw [h])
    | isFalse h => isFalse (fun e => h (by injection e))
  | .null, .bool _ | .null, .num _ | .null, .fnum _ _ | .null, .nan
  | .null, .inf _ | .null, .str _ | .null, .arr _ | .null, .obj _
  | .bool _, .null | .bool _, .num _ | .bool _, .fnum _ _ | .bool _, .nan
  | .bool _, .inf _ | .bool _, .str _ | .bool _, .arr _ | .bool _, .obj _
  | .num _, .null | .num _, .bool _ | .num _, .fnum _ _ | .num _, .nan
  | .num _, .inf _ | .num _, .str _ | .num _, .arr _ | .num _, .obj _
  | .fnum _ _, .null | .fnum _ _, .bool _ | .fnum _ _, .num _ | .fnum _ _, .nan
  | .fnum _ _, .inf _ | .fnum _ _, .str _ | .fnum _ _, .arr _ | .fnum _ _, .obj _
  | .nan, .null | .nan, .bool _ | .nan, .num _ | .nan, .fnum _ _
  | .nan, .inf _ | .nan, .str _ | .nan, .arr _ | .nan, .obj _
  | .inf _, .null | .inf _, .bool _ | .inf _, .num _ | .inf _, .fnum _ _
  | .inf _, .nan | .inf _, .str _ | .inf _, .arr _ | .inf _, .obj _
  | .str _, .null | .str _, .bool _ | .str _, .num _ | .str _, .fnum _ _
  | .str _, .nan | .str _, .inf _ | .str _, .arr _ | .str _, .obj _
  | .arr _, .null | .arr _, .bool _ | .arr _, .num _ | .arr _, .fnum _ _
  | .arr _, .nan | .arr _, .inf _ | .arr _, .str _ | .arr _, .obj _
  | .obj _, .null | .obj _, .bool _ | .obj _, .num _ | .obj _, .fnum _ _
  | .obj _, .nan | .obj _, .inf _ | .obj _, .str _ | .obj _, .arr _ =>
    isFalse (fun e => JValue.noConfusion e)

def decEqJL : (a b : List JValue) → Decidable (a = b)
  | [], [] => isTrue rfl
  | x :: xs, y :: ys =>
    match decEqJ x y, decEqJL xs ys with
    | isTrue h, isTrue h2 => isTrue (by rw [h, h2])
    | isFalse h, _ => isFalse (fun e => h (by injection e))
    | _, isFalse h => isFalse (fun e => h (by injection e))
  | [], _ :: _ => isFalse (fun e => List.noConfusion e)
  | _ :: _, [] => isFalse (fun e => List.noConfusion e)

def decEqJP : (a b : List (List Char × JValue)) → Decidable (a = b)
  | [], [] => isTrue rfl
  | (k, v) :: xs, (l, w) :: ys =>
    match decEq k l, decEqJ v w, decEqJP xs ys with
    | isTrue h, isTrue h2, isTrue h3 => isTrue (by rw [h, h2, h3])
    | isFalse h, _, _ =>
      isFalse (fun e => h (by injection e with e1 e2; injection e1))
    | _, isFalse h, _ =>
      isFalse (fun e => h (by injection e with e1 e2; injection e1))
    | _, _, isFalse h => isFalse (fun e => h (by injection e))
  | [], _ :: _ => isFalse (fun e => List.noConfusion e)
  | _ :: _, [] => isFalse (fun e => List.noConfusion e)

end

instance : DecidableEq JValue := decEqJ

/-- Python `dict` assignment `d[k] = v` on an association list: if the
key is present its value is replaced in place, otherwise the pair is
appended. -/
def dictUpd (ps : List (List Char × JValue)) (k : List Char) (v : JValue) :
    List (List Char × JValue) :=
  match ps with
  | [] => [(k, v)]
  | (k1, v1) :: t => if k1 = k then (k1, v) :: t else (k1, v1) :: dictUpd t k v

/-- First-occurrence lookup in an association list (Python `dict`
access; keys of a genuine `dict` are unique). -/
def alookup (ps : List (List Char × JValue)) (k : List Char) : Option JValue :=
  match ps with
  | [] => none
  | (k1, v1) :: t => if k1 = k then some v1 else alookup t k

theorem alookup_dictUpd_self (ps : List (List Char × JValue)) (k : List Char)
    (v : JValue) : alookup (dictUpd ps k v) k = some v := by
  induction ps with
  | nil => simp [dictUpd, alookup]
  | cons p t ih =>
    obtain ⟨k1, v1⟩ := p
    by_cases h : k1 = k <;> simp [dictUpd, alookup, h, ih]

theorem dictUpd_of_not_mem (ps : List (List Char × JValue)) (k : List Char)
    (v : JValue) (h : alookup ps k = none) : dictUpd ps k v = ps ++ [(k, v)] := by
  induction ps with
  | nil => simp [dictUpd]
  | cons p t ih =>
    obtain ⟨k1, v1⟩ := p
    by_cases hk : k1 = k
    · simp [alookup, hk] at h
    · simp [alookup, hk] at h
      simp [dictUpd, hk, ih h]

/-! ## Serialization: Python `json.dumps` with default options

`json.dumps` is called implicitly by the round-trip property of the
spec (`encode(obj)`).  Default options: `ensure_ascii=True`,
separators `", "` and `": "`.  The per-character escaping follows
`json.encoder.py_encode_basestring_ascii` and `ESCAPE_DCT`. -/

def natDigitsF : Nat → Nat → List Char
  | 0, _ => []
  | f + 1, n =>
    if n < 10 then [Char.ofNat (48 + n)]
    else natDigitsF f (n / 10) ++ [Char.ofNat (48 + n % 10)]

/-- Decimal digits of a natural number, most significant first. -/
def natDigits (n : Nat) : List Char := natDigitsF (n + 1) n

/-- Python `str()` of an `int`. -/
def intDec (n : Int) : List Char :=
  if n < 0 then '-' :: natDigits n.natAbs else natDigits n.toNat

/-- Lowercase hexadecimal digit, as produced by the `%04x` format of
the encoder. -/
def hexDig (k : Nat) : Char :=
  if k < 10 then Char.ofNat (48 + k) else Char.ofNat (87 + k)

def hex4 (n : Nat) : List Char :=
  [hexDig (n / 4096 % 16), hexDig (n / 256 % 16), hexDig (n / 16 % 16),
   hexDig (n % 16)]

/-- One character of `py_encode_basestring_ascii`: printable ASCII
other than quote and backslash is emitted verbatim, the characters of
`ESCAPE_DCT` get their two-character escapes, every other character
below `U+10000` becomes `\uXXXX`, and astral characters become a
surrogate pair. -/
def escChar (c : Char) : List Char :=
  if c = '\"' then ['\\', '\"']
  else if c = '\\' then ['\\', '\\']
  else if c.toNat = 8 then ['\\', 'b']
  else if c.toNat = 9 then ['\\', 't']
  else if c.toNat = 10 then ['\\', 'n']
  else if c.toNat = 12 then ['\\', 'f']
  else if c.toNat = 13 then ['\\', 'r']
  else if c.toNat < 0x20 then '\\' :: 'u' :: hex4 c.toNat
  else if c.toNat ≤ 0x7e then [c]
  else if c.toNat < 0x10000 then '\\' :: 'u' :: hex4 c.toNat
  else
    '\\' :: 'u' :: hex4 (0xd800 + (c.toNat - 0x10000) / 0x400) ++
    '\\' :: 'u' :: hex4 (0xdc00 + (c.toNat - 0x10000) % 0x400)

def escStr : List Char → List Char
  | [] => []
  | c :: t => escChar c ++ escStr t

/-- Encoded JSON string, quotes included. -/
def dumpsStr (s : List Char) : List Char := '\"' :: escStr s ++ ['\"']

mutual

/-- Python `json.dumps` with default options.  Floats are outside the
model: `fnum m e` is rendered as the (valid JSON) literal `<m>e<e>`,
which denotes the same rational, rather than as Python's
`repr(float)`; `wfJ` below excludes floats from every statement that
relies on `dumps`. -/
def dumps : JValue → List Char
  | .null => ("null").toList
  | .bool true => ("true").toList
  | .bool false => ("false").toList
  | .num n => intDec n
  | .fnum m e => intDec m ++ 'e' :: intDec e
  | .nan => ("NaN").toList
  | .inf true => ("-Infinity").toList
  | .inf false => ("Infinity").toList
  | .str s => dumpsStr s
  | .arr [] => ['[', ']']
  | .arr (x :: xs) => '[' :: (dumps x ++ dumpsArrTail xs ++ [']'])
  | .obj [] => ['{', '}']
  | .obj ((k, v) :: ps) =>
    '{' :: (dumpsStr k ++ ':' :: ' ' :: dumps v ++ dumpsObjTail ps ++ ['}'])

def dumpsArrTail : List JValue → List Char
  | [] => []
  | x :: xs => ',' :: ' ' :: dumps x ++ dumpsArrTail xs

def dumpsObjTail : List (List Char × JValue) → List Char
  | [] => []
  | (k, v) :: ps => ',' :: ' ' :: dumpsStr k ++ ':' :: ' ' :: dumps v ++ dumpsObjTail ps

end

def nodupKeys : List (List Char) → Bool
  | [] => true
  | k :: ks => !ks.contains k && nodupKeys ks

mutual

/-- Well-formed serializable value: float-free (`fnum`, `nan`, `inf`
excluded — the floating-point pieces of the model) and with the keys
of every object distinct, as the keys of a Python `dict` are. -/
def wfJ : JValue → Bool
  | .null => true
  | .bool _ => true
  | .num _ => true
  | .fnum _ _ => false
  | .nan => false
  | .inf _ => false
  | .str _ => true
  | .arr xs => wfJL xs
  | .obj ps => wfJP ps && nodupKeys (ps.map Prod.fst)

def wfJL : List JValue → Bool
  | [] => true
  | x :: xs => wfJ x && wfJL xs

def wfJP : List (List Char × JValue) → Bool
  | [] => true
  | (_, v) :: ps => wfJ v && wfJP ps

end

/-! ## Parsing: Python `json.loads`

Follows `json/decoder.py` and `json/scanner.py` (pure-Python
implementations, `strict=True`, no hooks): `decode` skips JSON
whitespace, scans one value with `_scan_once`, skips trailing JSON
whitespace and requires the end of the input.  Strings follow
`py_scanstring` including the lenient `int(esc, 16)` of
`_decode_uXXXX` and the surrogate-pair logic; numbers follow
`NUMBER_RE` with `int` for integer literals, and a literal with a
fraction or exponent — a Python float — is represented exactly as
`fnum`; objects fold their pairs through `dict` assignment.  Model
boundary: where CPython would build a string containing a lone
surrogate code point (unrepresentable in `Char`) the scalar `U+FFFD`
is substituted. -/

def dropW (s : List Char) : List Char := s.dropWhile isJWs

def mkScalar (n : Nat) : Char :=
  if n.isValidChar then Char.ofNat n else Char.ofNat 0xfffd

/-- Value of one hexadecimal digit, both cases. -/
def hexv (c : Char) : Option Nat :=
  if isDig c then some (digVal c)
  else if 97 ≤ c.toNat ∧ c.toNat ≤ 102 then some (c.toNat - 87)
  else if 65 ≤ c.toNat ∧ c.toNat ≤ 70 then some (c.toNat - 55)
  else none

/-- The `\\uXXXX` decoding of the scanner used by `json.loads` (the C
scanner): exactly four hexadecimal digits. -/
def decodeU (a b c d : Char) : Option Nat :=
  match hexv a, hexv b, hexv c, hexv d with
  | some va, some vb, some vc, some vd =>
    some (((va * 16 + vb) * 16 + vc) * 16 + vd)
  | _, _, _, _ => none

/-- The two-character escapes of `json.decoder.BACKSLASH`. -/
def escShort (e : Char) : Option Char :=
  if e = '\"' then some '\"'
  else if e = '\\' then some '\\'
  else if e = '/' then some '/'
  else if e = 'b' then some (Char.ofNat 8)
  else if e = 'f' then some (Char.ofNat 12)
  else if e = 'n' then some (Char.ofNat 10)
  else if e = 'r' then some (Char.ofNat 13)
  else if e = 't' then some (Char.ofNat 9)
  else none

/-- `py_scanstring` after the opening quote: returns the string
contents and the rest of the input after the closing quote.  The fuel
only serves structural recursion: every step consumes at least one
character, so the `length + 1` passed by the callers never runs
out. -/
def parseStrBody : Nat → List Char → Option (List Char × List Char)
  | 0, _ => none
  | _ + 1, [] => none
  | f + 1, c :: rest =>
    if c = '\"' then some ([], rest)
    else if c = '\\' then
      match rest with
      | [] => none
      | e :: r2 =>
        if e = 'u' then
          match r2 with
          | a :: b :: cc :: d :: r3 =>
            (match decodeU a b cc d with
             | none => none
             | some uni =>
               if 0xd800 ≤ uni ∧ uni ≤ 0xdbff then
                 match r3 with
                 | '\\' :: 'u' :: a2 :: b2 :: c2 :: d2 :: r4 =>
                   (match decodeU a2 b2 c2 d2 with
                    | none => none
                    | some uni2 =>
                      if 0xdc00 ≤ uni2 ∧ uni2 ≤ 0xdfff then
                        (parseStrBody f r4).map (fun p =>
                          (mkScalar (0x10000 + ((uni - 0xd800) * 0x400 +
                            (uni2 - 0xdc00))) :: p.1, p.2))
                      else
                        (parseStrBody f r3).map (fun p =>
                          (mkScalar uni :: p.1, p.2)))
                 | '\\' :: 'u' :: _ => none
                 | _ => (parseStrBody f r3).map (fun p => (mkScalar uni :: p.1, p.2))
               else (parseStrBody f r3).map (fun p => (mkScalar uni :: p.1, p.2)))
          | _ => none
        else
          match escShort e with
          | some ch => (parseStrBody f r2).map (fun p => (ch :: p.1, p.2))
          | none => none
    else if c.toNat < 0x20 then none
    else (parseStrBody f rest).map (fun p => (c :: p.1, p.2))

/-- Greedy decimal-digit run with accumulated value and count. -/
def digitsLoop : Nat → Nat → List Char → Nat × Nat × List Char
  | acc, cnt, [] => (acc, cnt, [])
  | acc, cnt, c :: r =>
    if isDig c then digitsLoop (acc * 10 + digVal c) (cnt + 1) r
    else (acc, cnt, c :: r)

/-- The `(\.\d+)?` group: at least one digit after the point, else
backtracked; returns (value, digit count, rest). -/
def parseFrac : List Char → Nat × Nat × List Char
  | [] => (0, 0, [])
  | c :: t =>
    if c = '.' then
      match t with
      | c2 :: r =>
        if isDig c2 then
          let (v, n, rest) := digitsLoop (digVal c2) 1 r
          (v, n, rest)
        else (0, 0, c :: t)
      | [] => (0, 0, c :: t)
    else (0, 0, c :: t)

/-- The `([eE][-+]?\d+)?` group: at least one digit, else the whole
group (sign included) is backtracked. -/
def parseExp : List Char → Int × Nat × List Char
  | [] => (0, 0, [])
  | e :: t =>
    if e = 'e' ∨ e = 'E' then
      match t with
      | '+' :: c :: r =>
        if isDig c then
          let (v, n, rest) := digitsLoop (digVal c) 1 r
          ((v : Int), n, rest)
        else (0, 0, e :: t)
      | '-' :: c :: r =>
        if isDig c then
          let (v, n, rest) := digitsLoop (digVal c) 1 r
          (-(v : Int), n, rest)
        else (0, 0, e :: t)
      | c :: r =>
        if isDig c then
          let (v, n, rest) := digitsLoop (digVal c) 1 r
          ((v : Int), n, rest)
        else (0, 0, e :: t)
      | [] => (0, 0, e :: t)
    else (0, 0, e :: t)

/-- Fraction and exponent parts (both optional) and the int-vs-float
decision. -/
def parseNumTail (neg : Bool) (ipart : Nat) (s : List Char) : JValue × List Char :=
  let f3 := parseFrac s
  let e3 := parseExp f3.2.2
  if f3.2.1 = 0 ∧ e3.2.1 = 0 then
    (.num (if neg then -(ipart : Int) else (ipart : Int)), e3.2.2)
  else
    let m : Int := (ipart : Int) * (10 : Int) ^ f3.2.1 + (f3.1 : Int)
    (.fnum (if neg then -m else m) (e3.1 - (f3.2.1 : Int)), e3.2.2)

/-- The `(-?(?:0|[1-9]\d*))` integer part, after the optional sign. -/
def parseNumBody (neg : Bool) (r : List Char) : Option (JValue × List Char) :=
  match r with
  | [] => none
  | c :: r2 =>
    if c = '0' then some (parseNumTail neg 0 r2)
    else if isDig c then
      let (v, _, rest) := digitsLoop (digVal c) 1 r2
      some (parseNumTail neg v rest)
    else none

/-- `NUMBER_RE` (`(-?(?:0|[1-9]\d*))(\.\d+)?([eE][-+]?\d+)?`) followed
by the `int`/`float` conversion of the scanner. -/
def parseNum (s : List Char) : Option (JValue × List Char) :=
  match s with
  | [] => none
  | c :: r => if c = '-' then parseNumBody true r else parseNumBody false (c :: r)

/-- The number branch of `_scan_once` followed by the `NaN` /
`Infinity` / `-Infinity` constants, in the scanner's order. -/
def parseNumConst (s : List Char) : Option (JValue × List Char) :=
  match parseNum s with
  | some r => some r
  | none =>
    match s with
    | 'N' :: 'a' :: 'N' :: r => some (.nan, r)
    | 'I' :: 'n' :: 'f' :: 'i' :: 'n' :: 'i' :: 't' :: 'y' :: r => some (.inf false, r)
    | '-' :: 'I' :: 'n' :: 'f' :: 'i' :: 'n' :: 'i' :: 't' :: 'y' :: r =>
      some (.inf true, r)
    | _ => none

mutual

/-- `_scan_once`.  The fuel decreases on every mutual call; since at
least one input character is consumed per two fuel units, the fuel
`2 * length + 4` used by `loads` never runs out before the input
does. -/
def parseVal : Nat → List Char → Option (JValue × List Char)
  | _, [] => none
  | f, c :: r =>
    if c = '\"' then (parseStrBody (r.length + 1) r).map (fun p => (.str p.1, p.2))
    else if c = '{' then
      match f with
      | 0 => none
      | f + 1 => parseObjStart f r
    else if c = '[' then
      match f with
      | 0 => none
      | f + 1 => parseArrStart f r
    else if c = 'n' then
      match r with
      | 'u' :: 'l' :: 'l' :: r2 => some (.null, r2)
      | _ => parseNumConst (c :: r)
    else if c = 't' then
      match r with
      | 'r' :: 'u' :: 'e' :: r2 => some (.bool true, r2)
      | _ => parseNumConst (c :: r)
    else if c = 'f' then
      match r with
      | 'a' :: 'l' :: 's' :: 'e' :: r2 => some (.bool false, r2)
      | _ => parseNumConst (c :: r)
    else parseNumConst (c :: r)

/-- `JSONArray` up to the first element. -/
def parseArrStart (f : Nat) (s : List Char) : Option (JValue × List Char) :=
  match dropW s with
  | [] => none
  | c :: r =>
    if c = ']' then some (.arr [], r)
    else
      match f with
      | 0 => none
      | f + 1 =>
        match parseVal f (c :: r) with
        | some (v, r2) => parseArrRest f [v] r2
        | none => none

/-- `JSONArray` after an element: whitespace then `]` or `,`. -/
def parseArrRest (f : Nat) (acc : List JValue) (s : List Char) :
    Option (JValue × List Char) :=
  match dropW s with
  | [] => none
  | c :: r =>
    if c = ']' then some (.arr acc, r)
    else if c = ',' then
      match f with
      | 0 => none
      | f + 1 =>
        match parseVal f (dropW r) with
        | some (v, r2) => parseArrRest f (acc ++ [v]) r2
        | none => none
    else none

/-- `JSONObject` up to the first key. -/
def parseObjStart (f : Nat) (s : List Char) : Option (JValue × List Char) :=
  match dropW s with
  | [] => none
  | c :: r =>
    if c = '}' then some (.obj [], r)
    else if c = '\"' then
      match f with
      | 0 => none
      | f + 1 => parseObjKey f [] r
    else none

/-- `JSONObject` from just after a key's opening quote; the pairs so
far are folded with `dict` assignment. -/
def parseObjKey (f : Nat) (acc : List (List Char × JValue)) (s : List Char) :
    Option (JValue × List Char) :=
  match parseStrBody (s.length + 1) s with
  | none => none
  | some (k, r) =>
    match dropW r with
    | [] => none
    | c :: r2 =>
      if c = ':' then
        match f with
        | 0 => none
        | f + 1 =>
          match parseVal f (dropW r2) with
          | some (v, r3) => parseObjRest f (dictUpd acc k v) r3
          | none => none
      else none

/-- `JSONObject` after a value: whitespace then `}` or `,` and the
next key. -/
def parseObjRest (f : Nat) (acc : List (List Char × JValue)) (s : List Char) :
    Option (JValue × List Char) :=
  match dropW s with
  | [] => none
  | c :: r =>
    if c = '}' then some (.obj acc, r)
    else if c = ',' then
      match dropW r with
      | [] => none
      | c2 :: r2 =>
        if c2 = '\"' then
          match f with
          | 0 => none
          | f + 1 => parseObjKey f acc r2
        else none
    else none

end

/-- `json.loads`: leading whitespace, one value, trailing whitespace,
end of input. -/
def loads (s : List Char) : Option JValue :=
  match parseVal (2 * s.length + 4) (dropW s) with
  | some (v, r) => if dropW r = [] then some v else none
  | none => none

/-! ## The two `re.search` calls of `_extract_json`

`re.search(r'```(?:json)?\s*([\s\S]*?)\s*```', text)`: the leftmost
starting position wins; at a given position the pattern matches three
backticks, then the greedy optional `json` (whose failure branch can
never rescue a failed match, since the extra characters it would free
up — `json` and whitespace — contain no backtick), then greedy `\s*`
(which always commits to the full whitespace run: a closing fence
cannot begin on a whitespace character), then the lazy group, which
grows exactly until the first position from which greedy `\s*` followed
by three backticks matches — i.e. up to the first later fence
occurrence, with the whitespace run immediately before it given to the
second `\s*`.  `findFencedBlock` implements exactly that: at the first
fence occurrence whose remainder contains another fence occurrence, it
returns the text between them, with `json` dropped, leading whitespace
dropped and the trailing whitespace run dropped. -/

def btick : Char := Char.ofNat 96

def startsFence : List Char → Bool
  | a :: b :: c :: _ => a == btick && b == btick && c == btick
  | _ => false

/-- Index of the first occurrence of three consecutive backticks. -/
def firstFenceIdx : List Char → Option Nat
  | [] => none
  | c :: t =>
    if startsFence (c :: t) then some 0 else (firstFenceIdx t).map (· + 1)

def stripTrailPyWs (s : List Char) : List Char :=
  (s.reverse.dropWhile isPyWs).reverse

/-- Group 1 of the fence pattern when the match starts right before
`s1`, `s1` being the input just after the opening three backticks. -/
def fenceContentAfterOpen (s1 : List Char) : Option (List Char) :=
  let s2 := match s1 with
    | 'j' :: 's' :: 'o' :: 'n' :: r => r
    | r => r
  let s3 := s2.dropWhile isPyWs
  (firstFenceIdx s3).map (fun p => stripTrailPyWs (s3.take p))

/-- `re.search` for the fenced-block pattern: group 1 of the match, if
any. -/
def findFencedBlock : List Char → Option (List Char)
  | [] => none
  | a :: t =>
    if startsFence (a :: t) then
      match fenceContentAfterOpen (t.drop 2) with
      | some g => some g
      | none => findFencedBlock t
    else findFencedBlock t

/-- Last index holding a closing brace. -/
def lastBraceIdx : List Char → Option Nat
  | [] => none
  | c :: t =>
    match lastBraceIdx t with
    | some j => some (j + 1)
    | none => if c = '}' then some 0 else none

/-- `re.search(r'({[\s\S]*})', text)`: the match starts at the
leftmost `{` that has a `}` somewhere after it, and the greedy
`[\s\S]*` extends it to the last `}` of the input. -/
def braceSearch : List Char → Option (List Char)
  | [] => none
  | c :: t =>
    if c = '{' then
      match lastBraceIdx t with
      | some j => some (c :: t.take (j + 1))
      | none => braceSearch t
    else braceSearch t

/-! ## `_extract_json` -/

/-- `text[:500] + "..." if len(text) > 500 else text`. -/
def truncRaw (t : List Char) : List Char :=
  if t.length > 500 then t.take 500 ++ ("...").toList else t

/-- The fallback record returned by the `except` arm of
`_extract_json`. -/
def fallbackRecord (t : List Char) : JValue :=
  .obj [(("error").toList, .str (("Failed to parse JSON").toList)),
        (("raw_text").toList, .str (truncRaw t))]

/-- The `try` block of `_extract_json`: the three ordered strategies,
where `none` is any `json.loads` exception escaping to the `except`
arm (in particular, a fenced block that fails to parse is never
retried with the later strategies). -/
def extractJsonBody (t : List Char) : Option JValue :=
  match findFencedBlock t with
  | some c => loads c
  | none =>
    match braceSearch t with
    | some sub => loads sub
    | none => loads t

/-- `_extract_json`. -/
def extractJson (t : List Char) : JValue :=
  match extractJsonBody t with
  | some v => v
  | none => fallbackRecord t

/-! ## Round-trip: `loads (dumps v) = some v` for well-formed `v`

This backs the spec's encode-then-extract identity.  The proofs go
constructor by constructor; arrays and objects are handled by a strong
induction on `sizeOf`. -/

theorem toNat_ofNat_valid (n : Nat) (h : n.isValidChar) :
    (Char.ofNat n).toNat = n := by
  simp [Char.ofNat, Nat.isValidChar, Char.ofNatAux, Char.toNat, h, UInt32.ofNat',
    UInt32.toNat, BitVec.toNat_ofNat]

theorem toNat_ofNat_small (n : Nat) (h : n < 0xd800) :
    (Char.ofNat n).toNat = n :=
  toNat_ofNat_valid n (Or.inl h)

theorem char_eq_of_toNat_eq (a b : Char) (h : a.toNat = b.toNat) : a = b := by
  apply Char.eq_of_val_eq
  apply UInt32.eq_of_toBitVec_eq
  have h2 : a.val.toNat = b.val.toNat := h
  exact BitVec.eq_of_toNat_eq h2

theorem valid_toNat (c : Char) : Nat.isValidChar c.toNat := by
  rcases c.valid with h | h
  · exact Or.inl h
  · exact Or.inr ⟨h.1, h.2⟩

theorem ofNat_toNat_char (c : Char) : Char.ofNat c.toNat = c :=
  char_eq_of_toNat_eq _ _ (toNat_ofNat_valid _ (valid_toNat c))

theorem char_surrogate_free (c : Char) :
    c.toNat < 0xd800 ∨ 0xdfff < c.toNat := by
  rcases c.valid with h | h
  · exact Or.inl h
  · exact Or.inr h.1

theorem mkScalar_toNat (c : Char) : mkScalar c.toNat = c := by
  rw [mkScalar, if_pos (valid_toNat c), ofNat_toNat_char]

theorem isDig_digitChar (n : Nat) (h : n < 10) :
    isDig (Char.ofNat (48 + n)) = true := by
  have h2 := toNat_ofNat_small (48 + n) (by omega)
  simp [isDig, h2]
  omega

theorem digVal_digitChar (n : Nat) (h : n < 10) :
    digVal (Char.ofNat (48 + n)) = n := by
  have h2 := toNat_ofNat_small (48 + n) (by omega)
  simp [digVal, h2]

theorem digitChar_ne_zero (n : Nat) (h : 1 ≤ n) (h2 : n < 10) :
    Char.ofNat (48 + n) ≠ '0' := by
  intro e
  have h3 : (Char.ofNat (48 + n)).toNat = ('0' : Char).toNat := by rw [e]
  rw [toNat_ofNat_small (48 + n) (by omega)] at h3
  have h4 : ('0' : Char).toNat = 48 := rfl
  omega

/-- The digit-fold evaluated by `digitsLoop` and friends. -/
def digStep (a : Nat) (c : Char) : Nat := a * 10 + digVal c

theorem natDigitsF_spec (f : Nat) : ∀ n k, n < f →
    ((∀ c ∈ natDigitsF f n, isDig c = true) ∧ natDigitsF f n ≠ [] ∧
     (natDigitsF f n).foldl digStep k =
       k * 10 ^ (natDigitsF f n).length + n) := by
  induction f with
  | zero => intro n k h; omega
  | succ f ih =>
    intro n k h
    by_cases h10 : n < 10
    · refine ⟨?_, ?_, ?_⟩
      · intro c hc
        simp [natDigitsF, h10] at hc
        rw [hc]
        exact isDig_digitChar n h10
      · simp [natDigitsF, h10]
      · simp [natDigitsF, h10, digStep, digVal_digitChar n h10]
    · have hlt : n / 10 < f := by omega
      obtain ⟨ha, hne, hf⟩ := ih (n / 10) k hlt
      refine ⟨?_, ?_, ?_⟩
      · intro c hc
        rw [natDigitsF] at hc
        rw [if_neg h10] at hc
        rcases List.mem_append.mp hc with hm | hm
        · exact ha c hm
        · simp at hm
          rw [hm]
          exact isDig_digitChar (n % 10) (by omega)
      · rw [natDigitsF, if_neg h10]
        simp
      · rw [natDigitsF, if_neg h10, List.foldl_append, hf]
        simp [digStep, digVal_digitChar (n % 10) (by omega), pow_succ]
        ring_nf
        omega

theorem natDigitsF_head_ne_zero (f : Nat) : ∀ n, n < f → 1 ≤ n →
    (natDigitsF f n).head? ≠ some '0' := by
  induction f with
  | zero => intro n h; omega
  | succ f ih =>
    intro n h h1
    by_cases h10 : n < 10
    · simp [natDigitsF, h10]
      exact digitChar_ne_zero n h1 h10
    · rw [natDigitsF, if_neg h10]
      obtain ⟨_, hne, _⟩ := natDigitsF_spec f (n / 10) 0 (by omega)
      rw [List.head?_append_of_ne_nil _ hne]
      exact ih (n / 10) (by omega) (by omega)

theorem natDigits_spec (n : Nat) :
    (∀ c ∈ natDigits n, isDig c = true) ∧ natDigits n ≠ [] ∧
      (natDigits n).foldl digStep 0 = n := by
  obtain ⟨ha, hne, hf⟩ := natDigitsF_spec (n + 1) n 0 (by omega)
  exact ⟨ha, hne, by simpa using hf⟩

/-- Head condition under which a number (or other) literal followed by
`rest` re-parses without absorbing part of `rest`. -/
def stopOkB : List Char → Bool
  | [] => true
  | c :: _ => !(isDig c || c == '.' || c == 'e' || c == 'E')

theorem digitsLoop_append (ds : List Char) : ∀ acc cnt rest,
    (∀ c ∈ ds, isDig c = true) → rest.head?.all (fun c => !isDig c) →
    digitsLoop acc cnt (ds ++ rest) =
      (ds.foldl digStep acc, cnt + ds.length, rest) := by
  induction ds with
  | nil =>
    intro acc cnt rest _ hrest
    cases rest with
    | nil => simp [digitsLoop]
    | cons c t =>
      simp at hrest
      simp [digitsLoop, hrest]
  | cons c t ih =>
    intro acc cnt rest hds hrest
    have hc : isDig c = true := hds c (by simp)
    simp only [List.cons_append, digitsLoop, hc, if_pos]
    rw [List.append_eq,
      ih (acc * 10 + digVal c) (cnt + 1) rest (fun d hd => hds d (by simp [hd])) hrest]
    simp only [List.foldl_cons, List.length_cons, digStep, Prod.mk.injEq, true_and,
      and_true, eq_self_iff_true]
    omega

theorem stopOkB_cons (c : Char) (t : List Char) (h : stopOkB (c :: t) = true) :
    isDig c = false ∧ c ≠ '.' ∧ c ≠ 'e' ∧ c ≠ 'E' := by
  simp [stopOkB] at h
  obtain ⟨⟨⟨h1, h2⟩, h3⟩, h4⟩ := h
  exact ⟨h1, h2, h3, h4⟩

theorem parseFrac_stop (s : List Char) (h : stopOkB s = true) :
    parseFrac s = (0, 0, s) := by
  cases s with
  | nil => rfl
  | cons c t =>
    obtain ⟨_, hdot, _, _⟩ := stopOkB_cons c t h
    simp only [parseFrac]
    rw [if_neg hdot]

theorem parseExp_stop (s : List Char) (h : stopOkB s = true) :
    parseExp s = (0, 0, s) := by
  cases s with
  | nil => rfl
  | cons c t =>
    obtain ⟨_, _, he, hE⟩ := stopOkB_cons c t h
    have hne : ¬(c = 'e' ∨ c = 'E') := by
      intro hx
      rcases hx with hx | hx
      · exact he hx
      · exact hE hx
    simp only [parseExp]
    rw [if_neg hne]

theorem parseNumTail_stop (neg : Bool) (ipart : Nat) (s : List Char)
    (h : stopOkB s = true) :
    parseNumTail neg ipart s =
      (JValue.num (if neg then -(ipart : Int) else (ipart : Int)), s) := by
  rw [parseNumTail]
  simp only [parseFrac_stop s h, parseExp_stop s h]
  simp

theorem isDig_ne_chars (c : Char) (h : isDig c = true) :
    c ≠ '-' ∧ c ≠ '.' := by
  constructor
  · intro e
    rw [e] at h
    exact absurd h (by decide)
  · intro e
    rw [e] at h
    exact absurd h (by decide)

theorem head_not_dig_of_stop (rest : List Char) (h : stopOkB rest = true) :
    rest.head?.all (fun c => !isDig c) = true := by
  cases rest with
  | nil => rfl
  | cons c t =>
    obtain ⟨hd, _, _, _⟩ := stopOkB_cons c t h
    simp [hd]

theorem parseNumBody_digits (m : Nat) (neg : Bool) (rest : List Char)
    (h : stopOkB rest = true) :
    parseNumBody neg (natDigits m ++ rest) =
      some (.num (if neg then -(m : Int) else (m : Int)), rest) := by
  obtain ⟨hdig, hne, hval⟩ := natDigits_spec m
  by_cases h0 : m = 0
  · subst h0
    have hd0 : natDigits 0 = ['0'] := rfl
    rw [hd0]
    simp only [List.cons_append, List.nil_append, parseNumBody, if_pos]
    rw [parseNumTail_stop neg 0 rest h]
  · obtain ⟨c, cs, hcs⟩ := List.exists_cons_of_ne_nil hne
    have hheadne : (natDigits m).head? ≠ some '0' :=
      natDigitsF_head_ne_zero (m + 1) m (by omega) (by omega)
    rw [hcs] at hheadne hdig hval ⊢
    simp only [List.head?_cons, ne_eq, Option.some.injEq] at hheadne
    have hcdig : isDig c = true := hdig c (by simp)
    simp only [List.cons_append, parseNumBody]
    rw [if_neg hheadne, if_pos hcdig]
    rw [digitsLoop_append cs (digVal c) 1 rest (fun d hd => hdig d (by simp [hd]))
      (head_not_dig_of_stop rest h)]
    have hfold : cs.foldl digStep (digVal c) = m := by
      have h5 : (c :: cs).foldl digStep 0 = m := hval
      simpa [digStep] using h5
    simp only [hfold]
    rw [parseNumTail_stop neg m rest h]

theorem parseNum_intDec (n : Int) (rest : List Char) (h : stopOkB rest = true) :
    parseNum (intDec n ++ rest) = some (.num n, rest) := by
  by_cases hn : n < 0
  · rw [intDec, if_pos hn]
    simp only [List.cons_append, parseNum]
    rw [if_true, parseNumBody_digits n.natAbs true rest h]
    have h2 : -((n.natAbs : Int)) = n := by omega
    simp only [if_true, h2]
  · rw [intDec, if_neg hn]
    have hd : ∃ c cs, natDigits n.toNat = c :: cs ∧ isDig c = true := by
      obtain ⟨hdig2, hne2, _⟩ := natDigits_spec n.toNat
      obtain ⟨c, cs, hcs⟩ := List.exists_cons_of_ne_nil hne2
      exact ⟨c, cs, hcs, hdig2 c (by rw [hcs]; simp)⟩
    obtain ⟨c, cs, hcs, hcdig⟩ := hd
    rw [hcs]
    have hcm : c ≠ '-' := (isDig_ne_chars c hcdig).1
    simp only [List.cons_append, parseNum]
    rw [if_neg hcm, ← List.cons_append, ← hcs,
      parseNumBody_digits n.toNat false rest h]
    have h2 : ((n.toNat : Int)) = n := by omega
    simp only [if_false, Bool.false_eq_true, h2]

theorem hexDig_lt (k : Nat) (h : k < 16) :
    hexv (hexDig k) = some k ∧ isPyWs (hexDig k) = false ∧
      hexDig k ≠ '+' ∧ hexDig k ≠ '-' ∧ hexDig k ≠ 'x' ∧ hexDig k ≠ 'X' ∧
      hexDig k ≠ '_' ∧ (hexDig k = '0' ↔ k = 0) := by
  interval_cases k <;> exact ⟨rfl, rfl, by decide, by decide, by decide, by decide,
    by decide, by decide⟩

theorem decodeU_hex4 (n : Nat) (h : n < 0x10000) :
    decodeU (hexDig (n / 4096 % 16)) (hexDig (n / 256 % 16))
      (hexDig (n / 16 % 16)) (hexDig (n % 16)) = some n := by
  have h1 : n / 4096 % 16 < 16 := Nat.mod_lt _ (by omega)
  have h2 : n / 256 % 16 < 16 := Nat.mod_lt _ (by omega)
  have h3 : n / 16 % 16 < 16 := Nat.mod_lt _ (by omega)
  have h4 : n % 16 < 16 := Nat.mod_lt _ (by omega)
  obtain ⟨hva, -, -, -, -, -, -, -⟩ := hexDig_lt _ h1
  obtain ⟨hvb, -, -, -, -, -, -, -⟩ := hexDig_lt _ h2
  obtain ⟨hvc, -, -, -, -, -, -, -⟩ := hexDig_lt _ h3
  obtain ⟨hvd, -, -, -, -, -, -, -⟩ := hexDig_lt _ h4
  have hval : ((n / 4096 % 16 * 16 + n / 256 % 16) * 16 + n / 16 % 16) * 16 +
      n % 16 = n := by omega
  simp only [decodeU, hva, hvb, hvc, hvd, hval]

/-- A single `\uXXXX` escape of a non-surrogate value re-parses to
the scalar. -/
theorem parseU_single (f n : Nat) (hn : n < 0x10000)
    (hsur : ¬(0xd800 ≤ n ∧ n ≤ 0xdbff)) (rest : List Char) :
    parseStrBody (f + 1) ('\\' :: 'u' :: hex4 n ++ rest) =
      (parseStrBody f rest).map (fun p => (mkScalar n :: p.1, p.2)) := by
  rw [hex4]
  simp only [List.cons_append, List.nil_append]
  simp +decide only [parseStrBody, ite_true, ite_false]
  simp only [decodeU_hex4 _ hn]
  rw [if_neg hsur]

/-- A surrogate-pair escape re-parses to the combined scalar. -/
theorem parseU_pair (f : Nat) (hi lo : Nat) (hhi : 0xd800 ≤ hi ∧ hi ≤ 0xdbff)
    (hhi2 : hi < 0x10000) (hlo : 0xdc00 ≤ lo ∧ lo ≤ 0xdfff) (hlo2 : lo < 0x10000)
    (rest : List Char) :
    parseStrBody (f + 1) ('\\' :: 'u' :: hex4 hi ++ '\\' :: 'u' :: hex4 lo ++ rest) =
      (parseStrBody f rest).map (fun p =>
        (mkScalar (0x10000 + ((hi - 0xd800) * 0x400 + (lo - 0xdc00))) :: p.1, p.2)) := by
  rw [hex4, hex4]
  simp only [List.cons_append, List.nil_append, List.append_assoc]
  simp +decide only [parseStrBody, ite_true, ite_false]
  simp only [decodeU_hex4 _ hhi2]
  rw [if_pos hhi]
  simp only [decodeU_hex4 _ hlo2]
  rw [if_pos hlo]

/-- A plain character (not quote, not backslash, not a control
character) re-parses verbatim. -/
theorem parseC_lit (f : Nat) (c : Char) (h1 : ¬c = '\"') (h2 : ¬c = '\\')
    (hc20 : ¬c.toNat < 0x20) (rest : List Char) :
    parseStrBody (f + 1) (c :: rest) =
      (parseStrBody f rest).map (fun p => (c :: p.1, p.2)) := by
  simp only [parseStrBody]
  rw [if_neg h1, if_neg h2, if_neg hc20]

/-- One escaped character re-parses to the character, whatever
follows. -/
theorem escChar_parse (c : Char) (f : Nat) (rest : List Char) :
    parseStrBody (f + 1) (escChar c ++ rest) =
      (parseStrBody f rest).map (fun p => (c :: p.1, p.2)) := by
  by_cases h1 : c = '\"'
  · subst h1
    rfl
  by_cases h2 : c = '\\'
  · subst h2
    rfl
  by_cases h8 : c.toNat = 8
  · rw [char_eq_of_toNat_eq c (Char.ofNat 8) (by rw [h8, toNat_ofNat_small 8 (by omega)])]
    rfl
  by_cases h9 : c.toNat = 9
  · rw [char_eq_of_toNat_eq c (Char.ofNat 9) (by rw [h9, toNat_ofNat_small 9 (by omega)])]
    rfl
  by_cases h10 : c.toNat = 10
  · rw [char_eq_of_toNat_eq c (Char.ofNat 10)
      (by rw [h10, toNat_ofNat_small 10 (by omega)])]
    rfl
  by_cases h12 : c.toNat = 12
  · rw [char_eq_of_toNat_eq c (Char.ofNat 12)
      (by rw [h12, toNat_ofNat_small 12 (by omega)])]
    rfl
  by_cases h13 : c.toNat = 13
  · rw [char_eq_of_toNat_eq c (Char.ofNat 13)
      (by rw [h13, toNat_ofNat_small 13 (by omega)])]
    rfl
  rw [escChar, if_neg h1, if_neg h2, if_neg h8, if_neg h9, if_neg h10, if_neg h12,
    if_neg h13]
  by_cases hc20 : c.toNat < 0x20
  · rw [if_pos hc20,
      parseU_single f c.toNat (by omega) (by omega) rest, mkScalar_toNat]
  rw [if_neg hc20]
  by_cases hc7e : c.toNat ≤ 0x7e
  · rw [if_pos hc7e]
    simp only [List.cons_append, List.nil_append]
    exact parseC_lit f c h1 h2 hc20 rest
  rw [if_neg hc7e]
  by_cases hc64 : c.toNat < 0x10000
  · have hsur := char_surrogate_free c
    rw [if_pos hc64,
      parseU_single f c.toNat (by omega) (by omega) rest, mkScalar_toNat]
  rw [if_neg hc64]
  have hub : c.toNat < 0x110000 := by
    rcases valid_toNat c with hv | hv
    · omega
    · omega
  have hmod := Nat.mod_lt (c.toNat - 0x10000) (show 0 < 0x400 by omega)
  rw [parseU_pair f (0xd800 + (c.toNat - 0x10000) / 0x400)
      (0xdc00 + (c.toNat - 0x10000) % 0x400)
      (by constructor <;> omega) (by omega)
      (by constructor <;> omega) (by omega) rest]
  have harith : 0x10000 + ((0xd800 + (c.toNat - 0x10000) / 0x400 - 0xd800) * 0x400 +
      (0xdc00 + (c.toNat - 0x10000) % 0x400 - 0xdc00)) = c.toNat := by
    have := Nat.div_add_mod (c.toNat - 0x10000) 0x400
    omega
  rw [harith, mkScalar_toNat]

/-- A serialized string body re-parses to the string. -/
theorem parseStr_round (s : List Char) : ∀ f rest, s.length < f →
    parseStrBody f (escStr s ++ '\"' :: rest) = some (s, rest) := by
  induction s with
  | nil =>
    intro f rest h
    match f, h with
    | f + 1, _ => rfl
  | cons c t ih =>
    intro f rest h
    match f, h with
    | f + 1, h =>
      rw [escStr, List.append_assoc, escChar_parse c f (escStr t ++ '\"' :: rest)]
      rw [ih f rest (by simp at h; omega)]
      rfl

theorem escChar_len_pos (c : Char) : 1 ≤ (escChar c).length := by
  rw [escChar]
  by_cases h1 : c = '\"'
  · simp [h1]
  by_cases h2 : c = '\\'
  · simp [h1, h2]
  simp only [h1, h2, if_false]
  split_ifs <;> simp [hex4]

theorem escStr_len (s : List Char) : s.length ≤ (escStr s).length := by
  induction s with
  | nil => simp [escStr]
  | cons c t ih =>
    rw [escStr, List.length_append, List.length_cons]
    have h1 := escChar_len_pos c
    omega

mutual

/-- Fuel consumed by `parseVal` on the serialization of a value; two
units per construct suffice since each mutual call decrements the fuel
once. -/
def costJ : JValue → Nat
  | .arr xs => 2 + costL xs
  | .obj ps => 2 + costP ps
  | _ => 1

def costL : List JValue → Nat
  | [] => 0
  | x :: xs => 2 + costJ x + costL xs

def costP : List (List Char × JValue) → Nat
  | [] => 0
  | (_, v) :: ps => 3 + costJ v + costP ps

end

theorem numHead_props (c : Char)
    (h : c.toNat = 45 ∨ (48 ≤ c.toNat ∧ c.toNat ≤ 57)) :
    isJWs c = false ∧ c ≠ '\"' ∧ c ≠ '{' ∧ c ≠ '[' ∧ c ≠ 'n' ∧ c ≠ 't' ∧
      c ≠ 'f' ∧ c ≠ ']' ∧ c ≠ '}' := by
  have hsp : c ≠ ' ' := fun e => by subst e; exact absurd h (by decide)
  have hta : c ≠ '\t' := fun e => by subst e; exact absurd h (by decide)
  have hnl : c ≠ '\n' := fun e => by subst e; exact absurd h (by decide)
  have hcr : c ≠ '\r' := fun e => by subst e; exact absurd h (by decide)
  refine ⟨by simp [isJWs, hsp, hta, hnl, hcr], ?_, ?_, ?_, ?_, ?_, ?_, ?_, ?_⟩
  all_goals intro e; subst e; exact absurd h (by decide)

theorem intDec_head (n : Int) : ∃ c cs, intDec n = c :: cs ∧
    (c.toNat = 45 ∨ (48 ≤ c.toNat ∧ c.toNat ≤ 57)) := by
  by_cases hn : n < 0
  · exact ⟨'-', natDigits n.natAbs, by rw [intDec, if_pos hn], Or.inl rfl⟩
  · obtain ⟨hdig, hne, -⟩ := natDigits_spec n.toNat
    obtain ⟨c, cs, hcs⟩ := List.exists_cons_of_ne_nil hne
    refine ⟨c, cs, by rw [intDec, if_neg hn, hcs], Or.inr ?_⟩
    have hc := hdig c (by rw [hcs]; simp)
    simpa [isDig] using hc

/-- Head of a serialized value: never whitespace, never a closing
bracket, so the whitespace-skipping and bracket tests of the
array/object loops leave it alone. -/
theorem dumps_head (v : JValue) : ∃ c cs, dumps v = c :: cs ∧
    isJWs c = false ∧ c ≠ ']' ∧ c ≠ '}' := by
  cases v with
  | null => exact ⟨'n', _, rfl, rfl, by decide, by decide⟩
  | bool b => cases b with
    | true => exact ⟨'t', _, rfl, rfl, by decide, by decide⟩
    | false => exact ⟨'f', _, rfl, rfl, by decide, by decide⟩
  | num n =>
    obtain ⟨c, cs, hcs, hp⟩ := intDec_head n
    obtain ⟨hw, -, -, -, -, -, -, hr, hb⟩ := numHead_props c hp
    exact ⟨c, cs, by rw [dumps, hcs], hw, hr, hb⟩
  | fnum m e =>
    obtain ⟨c, cs, hcs, hp⟩ := intDec_head m
    obtain ⟨hw, -, -, -, -, -, -, hr, hb⟩ := numHead_props c hp
    refine ⟨c, cs ++ 'e' :: intDec e, ?_, hw, hr, hb⟩
    rw [dumps, hcs]
    rfl
  | nan => exact ⟨'N', _, rfl, rfl, by decide, by decide⟩
  | inf neg => cases neg with
    | true => exact ⟨'-', _, rfl, rfl, by decide, by decide⟩
    | false => exact ⟨'I', _, rfl, rfl, by decide, by decide⟩
  | str s => exact ⟨'\"', _, rfl, rfl, by decide, by decide⟩
  | arr xs => cases xs with
    | nil => exact ⟨'[', _, rfl, rfl, by decide, by decide⟩
    | cons x t => exact ⟨'[', _, rfl, rfl, by decide, by decide⟩
  | obj ps => cases ps with
    | nil => exact ⟨'{', _, rfl, rfl, by decide, by decide⟩
    | cons p t =>
      obtain ⟨k, v2⟩ := p
      exact ⟨'{', _, rfl, rfl, by decide, by decide⟩

theorem dropW_cons_of_not_ws (c : Char) (l : List Char) (h : isJWs c = false) :
    dropW (c :: l) = c :: l := by
  simp [dropW, List.dropWhile_cons, h]

theorem alookup_append_none (a b : List (List Char × JValue)) (k : List Char)
    (ha : alookup a k = none) (hb : alookup b k = none) :
    alookup (a ++ b) k = none := by
  induction a with
  | nil => simpa using hb
  | cons p t ih =>
    obtain ⟨k1, v1⟩ := p
    by_cases hk : k1 = k
    · simp [alookup, hk] at ha
    · simp only [alookup, hk, if_neg, List.cons_append] at ha ⊢
      exact ih ha

/-- Round-trip property of a single value, at every sufficient fuel
and every stopping continuation. -/
def RT (v : JValue) : Prop :=
  ∀ f rest, costJ v ≤ f → stopOkB rest = true →
    parseVal f (dumps v ++ rest) = some (v, rest)

theorem contains_false_not_mem (ks : List (List Char)) (k : List Char)
    (h : ks.contains k = false) : k ∉ ks := by
  intro hm
  induction ks with
  | nil => simp at hm
  | cons a t ih =>
    rw [List.contains_cons, Bool.or_eq_false_iff] at h
    rcases List.mem_cons.mp hm with hm2 | hm2
    · rw [hm2] at h
      simp at h
    · exact ih h.2 hm2

theorem alookup_single_none (k k2 : List Char) (v2 : JValue) (h : k2 ≠ k) :
    alookup [(k2, v2)] k = none := by
  simp [alookup, h]

theorem nodupKeys_cons (k : List Char) (ks : List (List Char))
    (h : nodupKeys (k :: ks) = true) :
    ks.contains k = false ∧ nodupKeys ks = true := by
  rw [nodupKeys, Bool.and_eq_true, Bool.not_eq_true'] at h
  exact h

theorem stopOk_arrTail (xs : List JValue) (rest : List Char) :
    stopOkB (dumpsArrTail xs ++ ']' :: rest) = true := by
  cases xs with
  | nil => rfl
  | cons y ys => rfl

theorem stopOk_objTail (ps : List (List Char × JValue)) (rest : List Char) :
    stopOkB (dumpsObjTail ps ++ '}' :: rest) = true := by
  cases ps with
  | nil => rfl
  | cons p t =>
    obtain ⟨k, v⟩ := p
    rfl

theorem dropW_space (l : List Char) : dropW (' ' :: l) = dropW l := rfl

/-- The serialized tail of an array is long enough to pay for its
parsing fuel. -/
theorem costL_le (xs : List JValue)
    (h : ∀ x ∈ xs, costJ x ≤ 2 * (dumps x).length) :
    costL xs ≤ 2 * (dumpsArrTail xs).length := by
  induction xs with
  | nil => simp [costL, dumpsArrTail]
  | cons y ys ih =>
    have h1 := h y (by simp)
    have h2 := ih (fun x hx => h x (by simp [hx]))
    rw [costL, dumpsArrTail]
    simp only [List.length_cons, List.length_append]
    omega

/-- The serialized tail of an object is long enough to pay for its
parsing fuel. -/
theorem costP_le (ps : List (List Char × JValue))
    (h : ∀ p ∈ ps, costJ p.2 ≤ 2 * (dumps p.2).length) :
    costP ps ≤ 2 * (dumpsObjTail ps).length := by
  induction ps with
  | nil => simp [costP, dumpsObjTail]
  | cons q qs ih =>
    obtain ⟨k, v⟩ := q
    have h1 : costJ v ≤ 2 * (dumps v).length := h (k, v) (by simp)
    have h2 := ih (fun p hp => h p (by simp [hp]))
    rw [costP, dumpsObjTail]
    simp only [List.length_cons, List.length_append]
    omega

/-- A serialization is long enough to pay for its parsing fuel. -/
theorem costJ_le (n : Nat) : ∀ v, sizeOf v ≤ n → costJ v ≤ 2 * (dumps v).length := by
  induction n using Nat.strong_induction_on with
  | _ n ih =>
  intro v hs
  cases v with
  | null => decide
  | bool b => cases b <;> decide
  | num m =>
    obtain ⟨c, cs, hcs, -⟩ := intDec_head m
    rw [show costJ (JValue.num m) = 1 from rfl,
      show dumps (JValue.num m) = intDec m from rfl, hcs]
    simp only [List.length_cons]
    omega
  | fnum m e =>
    obtain ⟨c, cs, hcs, -⟩ := intDec_head m
    rw [show costJ (JValue.fnum m e) = 1 from rfl,
      show dumps (JValue.fnum m e) = intDec m ++ 'e' :: intDec e from rfl, hcs]
    simp only [List.length_append, List.length_cons]
    omega
  | nan => decide
  | inf b => cases b <;> decide
  | str t =>
    rw [show costJ (JValue.str t) = 1 from rfl,
      show dumps (JValue.str t) = '\"' :: (escStr t ++ ['\"']) from rfl]
    simp only [List.length_cons, List.length_append]
    omega
  | arr xs =>
    have hm : ∀ x ∈ xs, costJ x ≤ 2 * (dumps x).length := by
      intro x hx
      refine ih (sizeOf x) ?_ x le_rfl
      have h2 := List.sizeOf_lt_of_mem hx
      have h3 : sizeOf (JValue.arr xs) = 1 + sizeOf xs := by simp
      omega
    cases xs with
    | nil => decide
    | cons x xs2 =>
      have h1 := hm x (by simp)
      have h2 := costL_le xs2 (fun y hy => hm y (by simp [hy]))
      rw [show costJ (JValue.arr (x :: xs2)) = 2 + costL (x :: xs2) from rfl,
        costL, show dumps (JValue.arr (x :: xs2)) =
        '[' :: (dumps x ++ dumpsArrTail xs2 ++ [']']) from rfl]
      simp only [List.length_cons, List.length_append]
      omega
  | obj ps =>
    have hm : ∀ p ∈ ps, costJ p.2 ≤ 2 * (dumps p.2).length := by
      intro p hp
      refine ih (sizeOf p.2) ?_ p.2 le_rfl
      have h2 := List.sizeOf_lt_of_mem hp
      have h3 : sizeOf (JValue.obj ps) = 1 + sizeOf ps := by simp
      have h4 : sizeOf p.2 < sizeOf p := by
        obtain ⟨a, b⟩ := p
        simp
      omega
    cases ps with
    | nil => decide
    | cons q ps2 =>
      obtain ⟨k, v⟩ := q
      have h1 : costJ v ≤ 2 * (dumps v).length := hm (k, v) (by simp)
      have h2 := costP_le ps2 (fun p hp => hm p (by simp [hp]))
      rw [show costJ (JValue.obj ((k, v) :: ps2)) = 2 + costP ((k, v) :: ps2)
          from rfl,
        costP, show dumps (JValue.obj ((k, v) :: ps2)) =
        '{' :: (dumpsStr k ++ ':' :: ' ' :: dumps v ++ dumpsObjTail ps2 ++
          ['}']) from rfl, dumpsStr]
      simp only [List.length_cons, List.length_append]
      omega

/-- The tail of a serialized array re-parses, extending the
accumulator. -/
theorem arrTail_round (xs : List JValue) : ∀ f acc rest, costL xs ≤ f →
    (∀ x ∈ xs, RT x) →
    parseArrRest f acc (dumpsArrTail xs ++ ']' :: rest) =
      some (.arr (acc ++ xs), rest) := by
  induction xs with
  | nil =>
    intro f acc rest _ _
    simp only [dumpsArrTail, List.nil_append, List.append_nil]
    rw [parseArrRest, dropW_cons_of_not_ws ']' rest (by decide)]
    rfl
  | cons y ys ih =>
    intro f acc rest hc hrt
    obtain ⟨f1, rfl⟩ : ∃ f1, f = f1 + 1 := ⟨f - 1, by rw [costL] at hc; omega⟩
    simp only [dumpsArrTail, List.cons_append, List.append_assoc]
    rw [parseArrRest, dropW_cons_of_not_ws ',' _ (by decide)]
    show (match parseVal f1 (dropW (' ' :: (dumps y ++ (dumpsArrTail ys ++
        ']' :: rest)))) with
      | some (v, r2) => parseArrRest f1 (acc ++ [v]) r2
      | none => none) = _
    rw [dropW_space]
    obtain ⟨c, cs, hcs, hws, -, -⟩ := dumps_head y
    rw [hcs, List.cons_append, dropW_cons_of_not_ws c _ hws, ← List.cons_append,
      ← hcs]
    rw [hrt y (by simp) f1 (dumpsArrTail ys ++ ']' :: rest)
      (by rw [costL] at hc; omega) (stopOk_arrTail ys rest)]
    show parseArrRest f1 (acc ++ [y]) (dumpsArrTail ys ++ ']' :: rest) = _
    rw [ih f1 (acc ++ [y]) rest (by rw [costL] at hc; omega)
      (fun x hx => hrt x (by simp [hx]))]
    simp

/-- The tail of a serialized object re-parses through `dict`
assignment, appending fresh keys to the accumulator. -/
theorem objTail_round (ps : List (List Char × JValue)) : ∀ f acc rest,
    costP ps ≤ f →
    (∀ p ∈ ps, RT p.2) →
    (∀ p ∈ ps, alookup acc p.1 = none) →
    nodupKeys (ps.map Prod.fst) = true →
    parseObjRest f acc (dumpsObjTail ps ++ '}' :: rest) =
      some (.obj (acc ++ ps), rest) := by
  induction ps with
  | nil =>
    intro f acc rest _ _ _ _
    simp only [dumpsObjTail, List.nil_append, List.append_nil]
    rw [parseObjRest, dropW_cons_of_not_ws '}' rest (by decide)]
    rfl
  | cons p ps2 ih =>
    obtain ⟨k2, v2⟩ := p
    intro f acc rest hc hrt hfresh hnd
    obtain ⟨f2, rfl⟩ : ∃ f2, f = f2 + 2 := ⟨f - 2, by rw [costP] at hc; omega⟩
    simp only [dumpsObjTail, dumpsStr, List.cons_append, List.append_assoc,
      List.nil_append]
    rw [parseObjRest, dropW_cons_of_not_ws ',' _ (by decide)]
    show parseObjKey (f2 + 1) acc
      (escStr k2 ++ '\"' :: (':' :: ' ' :: (dumps v2 ++
        (dumpsObjTail ps2 ++ '}' :: rest)))) = _
    rw [parseObjKey]
    rw [parseStr_round k2 _ _ (by
      have h1 := escStr_len k2
      simp only [List.length_append, List.length_cons]
      omega)]
    show (match parseVal f2 (dropW (' ' :: (dumps v2 ++
        (dumpsObjTail ps2 ++ '}' :: rest)))) with
      | some (v, r3) => parseObjRest f2 (dictUpd acc k2 v) r3
      | none => none) = _
    rw [dropW_space]
    obtain ⟨c, cs, hcs, hws, -, -⟩ := dumps_head v2
    rw [hcs, List.cons_append, dropW_cons_of_not_ws c _ hws, ← List.cons_append,
      ← hcs]
    rw [hrt (k2, v2) (by simp) f2 (dumpsObjTail ps2 ++ '}' :: rest)
      (by show costJ v2 ≤ f2; rw [costP] at hc; omega) (stopOk_objTail ps2 rest)]
    show parseObjRest f2 (dictUpd acc k2 v2) (dumpsObjTail ps2 ++ '}' :: rest) = _
    have hupd : dictUpd acc k2 v2 = acc ++ [(k2, v2)] :=
      dictUpd_of_not_mem acc k2 v2 (hfresh (k2, v2) (by simp))
    rw [hupd]
    obtain ⟨hcon, hnd2⟩ := nodupKeys_cons k2 (ps2.map Prod.fst) (by simpa using hnd)
    rw [ih f2 (acc ++ [(k2, v2)]) rest (by rw [costP] at hc; omega)
      (fun q hq => hrt q (by simp [hq]))
      (fun q hq => by
        apply alookup_append_none
        · exact hfresh q (by simp [hq])
        · apply alookup_single_none
          intro e
          exact contains_false_not_mem _ _ hcon (e ▸ List.mem_map_of_mem Prod.fst hq))
      hnd2]
    simp

theorem wfJL_mem (xs : List JValue) (h : wfJL xs = true) :
    ∀ x ∈ xs, wfJ x = true := by
  induction xs with
  | nil => intro x hx; simp at hx
  | cons y ys ih =>
    rw [wfJL, Bool.and_eq_true] at h
    intro x hx
    rcases List.mem_cons.mp hx with hx | hx
    · rw [hx]; exact h.1
    · exact ih h.2 x hx

theorem wfJP_mem (ps : List (List Char × JValue)) (h : wfJP ps = true) :
    ∀ p ∈ ps, wfJ p.2 = true := by
  induction ps with
  | nil => intro p hp; simp at hp
  | cons q qs ih =>
    obtain ⟨k, v⟩ := q
    rw [wfJP, Bool.and_eq_true] at h
    intro p hp
    rcases List.mem_cons.mp hp with hp | hp
    · rw [hp]; exact h.1
    · exact ih h.2 p hp

/-- When the plain number grammar succeeds, the constant branches of
`parseNumConst` are not consulted. -/
theorem parseNumConst_pos (s : List Char) (p : JValue × List Char)
    (h : parseNum s = some p) : parseNumConst s = some p := by
  rw [parseNumConst.eq_def, h]

set_option maxHeartbeats 2000000 in
/-- One-step unfolding of `parseVal` on a non-empty input. -/
theorem parseVal_cons (f : Nat) (c : Char) (r : List Char) :
    parseVal f (c :: r) =
      (if c = '\"' then
        (parseStrBody (r.length + 1) r).map (fun p => (.str p.1, p.2))
      else if c = '{' then
        match f with
        | 0 => none
        | f + 1 => parseObjStart f r
      else if c = '[' then
        match f with
        | 0 => none
        | f + 1 => parseArrStart f r
      else if c = 'n' then
        match r with
        | 'u' :: 'l' :: 'l' :: r2 => some (.null, r2)
        | _ => parseNumConst (c :: r)
      else if c = 't' then
        match r with
        | 'r' :: 'u' :: 'e' :: r2 => some (.bool true, r2)
        | _ => parseNumConst (c :: r)
      else if c = 'f' then
        match r with
        | 'a' :: 'l' :: 's' :: 'e' :: r2 => some (.bool false, r2)
        | _ => parseNumConst (c :: r)
      else parseNumConst (c :: r)) := by
  cases f <;> rfl

set_option maxHeartbeats 4000000 in
/-- Round-trip for every well-formed value. -/
theorem rt_of_wf (n : Nat) : ∀ v, sizeOf v ≤ n → wfJ v = true → RT v := by
  induction n using Nat.strong_induction_on with
  | _ n ih =>
  intro v hs hw
  cases v with
  | null =>
    intro f rest hf hstop
    rw [show dumps JValue.null = ['n', 'u', 'l', 'l'] from rfl]
    simp only [List.cons_append, List.nil_append]
    cases f <;> rfl
  | bool b =>
    cases b with
    | true =>
      intro f rest hf hstop
      rw [show dumps (JValue.bool true) = ['t', 'r', 'u', 'e'] from rfl]
      simp only [List.cons_append, List.nil_append]
      cases f <;> rfl
    | false =>
      intro f rest hf hstop
      rw [show dumps (JValue.bool false) = ['f', 'a', 'l', 's', 'e'] from rfl]
      simp only [List.cons_append, List.nil_append]
      cases f <;> rfl
  | num m =>
    intro f rest hf hstop
    obtain ⟨c, cs, hcs, hp⟩ := intDec_head m
    obtain ⟨-, hq, hbr, hbk, hn, ht, hf2, -, -⟩ := numHead_props c hp
    rw [show dumps (JValue.num m) = intDec m from rfl, hcs, List.cons_append]
    rw [parseVal_cons]
    rw [if_neg hq, if_neg hbr, if_neg hbk, if_neg hn, if_neg ht, if_neg hf2]
    rw [← List.cons_append, ← hcs,
      parseNumConst_pos _ _ (parseNum_intDec m rest hstop)]
  | fnum m e => simp [wfJ] at hw
  | nan => simp [wfJ] at hw
  | inf b => simp [wfJ] at hw
  | str s =>
    intro f rest hf hstop
    rw [show dumps (JValue.str s) = '\"' :: (escStr s ++ ['\"']) from rfl]
    simp only [List.cons_append, List.append_assoc, List.nil_append]
    rw [parseVal_cons, if_pos rfl]
    rw [parseStr_round s _ rest (by
      have h1 := escStr_len s
      simp only [List.length_append, List.length_cons]
      omega)]
    rfl
  | arr xs =>
    cases xs with
    | nil =>
      intro f rest hf hstop
      obtain ⟨f1, rfl⟩ : ∃ f1, f = f1 + 1 := ⟨f - 1, by
        rw [costJ] at hf; omega⟩
      rw [show dumps (JValue.arr []) = ['[', ']'] from rfl]
      simp only [List.cons_append, List.nil_append]
      rw [parseVal_cons]
      rw [if_neg (by decide), if_neg (by decide), if_pos rfl]
      show parseArrStart f1 (']' :: rest) = _
      cases f1 <;> rfl
    | cons x xs2 =>
      have hwl : wfJL (x :: xs2) = true := by
        rw [wfJ] at hw
        exact hw
      have hsz : sizeOf (JValue.arr (x :: xs2)) = 1 + sizeOf (x :: xs2) := by
        simp
      have hmem : ∀ y ∈ x :: xs2, RT y := by
        intro y hy
        refine ih (sizeOf y) ?_ y le_rfl (wfJL_mem (x :: xs2) hwl y hy)
        have h2 := List.sizeOf_lt_of_mem hy
        omega
      intro f rest hf hstop
      rw [costJ, costL] at hf
      obtain ⟨f2, rfl⟩ : ∃ f2, f = f2 + 2 := ⟨f - 2, by omega⟩
      rw [show dumps (JValue.arr (x :: xs2)) =
        '[' :: (dumps x ++ dumpsArrTail xs2 ++ [']']) from rfl]
      simp only [List.cons_append, List.append_assoc, List.nil_append]
      rw [parseVal_cons]
      rw [if_neg (by decide), if_neg (by decide), if_pos rfl]
      show parseArrStart (f2 + 1) (dumps x ++ (dumpsArrTail xs2 ++ ']' :: rest)) = _
      obtain ⟨c, cs, hcs, hws, hcr, -⟩ := dumps_head x
      rw [hcs, List.cons_append, parseArrStart,
        dropW_cons_of_not_ws c _ hws]
      show (if c = ']' then
          some (JValue.arr [], cs ++ (dumpsArrTail xs2 ++ ']' :: rest))
        else
          match parseVal f2 (c :: (cs ++ (dumpsArrTail xs2 ++ ']' :: rest))) with
          | some (v, r2) => parseArrRest f2 [v] r2
          | none => none) = _
      rw [if_neg hcr]
      rw [← List.cons_append, ← hcs]
      rw [hmem x (by simp) f2 (dumpsArrTail xs2 ++ ']' :: rest) (by omega)
        (stopOk_arrTail xs2 rest)]
      rw [show (match some ((x : JValue), dumpsArrTail xs2 ++ ']' :: rest) with
        | some (v, r2) => parseArrRest f2 [v] r2
        | none => none) = parseArrRest f2 [x] (dumpsArrTail xs2 ++ ']' :: rest)
        from rfl]
      rw [arrTail_round xs2 f2 [x] rest (by omega)
        (fun y hy => hmem y (by simp [hy]))]
      simp
  | obj ps =>
    cases ps with
    | nil =>
      intro f rest hf hstop
      obtain ⟨f1, rfl⟩ : ∃ f1, f = f1 + 1 := ⟨f - 1, by
        rw [costJ] at hf; omega⟩
      rw [show dumps (JValue.obj []) = ['{', '}'] from rfl]
      simp only [List.cons_append, List.nil_append]
      rw [parseVal_cons]
      rw [if_neg (by decide), if_pos rfl]
      show parseObjStart f1 ('}' :: rest) = _
      cases f1 <;> rfl
    | cons p ps2 =>
      obtain ⟨k, v⟩ := p
      have hwp : wfJP ((k, v) :: ps2) = true ∧
          nodupKeys (((k, v) :: ps2).map Prod.fst) = true := by
        rw [wfJ, Bool.and_eq_true] at hw
        exact hw
      have hmem : ∀ q ∈ (k, v) :: ps2, RT q.2 := by
        intro q hq
        refine ih (sizeOf q.2) ?_ q.2 le_rfl (wfJP_mem _ hwp.1 q hq)
        have h2 := List.sizeOf_lt_of_mem hq
        have h3 : sizeOf (JValue.obj ((k, v) :: ps2)) =
            1 + sizeOf ((k, v) :: ps2) := by simp
        have h4 : sizeOf q.2 < sizeOf q := by
          obtain ⟨a, b⟩ := q
          simp
        omega
      intro f rest hf hstop
      rw [costJ, costP] at hf
      obtain ⟨f3, rfl⟩ : ∃ f3, f = f3 + 3 := ⟨f - 3, by omega⟩
      rw [show dumps (JValue.obj ((k, v) :: ps2)) =
        '{' :: (dumpsStr k ++ ':' :: ' ' :: dumps v ++ dumpsObjTail ps2 ++ ['}'])
        from rfl]
      rw [show dumpsStr k = '\"' :: escStr k ++ ['\"'] from rfl]
      simp only [List.cons_append, List.append_assoc, List.nil_append]
      rw [parseVal_cons]
      rw [if_neg (by decide), if_pos rfl]
      show parseObjStart (f3 + 2)
        ('\"' :: (escStr k ++ ('\"' :: (':' :: ' ' :: (dumps v ++
          (dumpsObjTail ps2 ++ '}' :: rest)))))) = _
      rw [parseObjStart, dropW_cons_of_not_ws '\"' _ (by decide)]
      show parseObjKey (f3 + 1) []
        (escStr k ++ ('\"' :: (':' :: ' ' :: (dumps v ++
          (dumpsObjTail ps2 ++ '}' :: rest))))) = _
      rw [parseObjKey]
      rw [parseStr_round k _ _ (by
        have h1 := escStr_len k
        simp only [List.length_append, List.length_cons]
        omega)]
      show (match parseVal f3 (dropW (' ' :: (dumps v ++
          (dumpsObjTail ps2 ++ '}' :: rest)))) with
        | some (v2, r3) => parseObjRest f3 (dictUpd [] k v2) r3
        | none => none) = _
      rw [dropW_space]
      obtain ⟨c, cs, hcs, hws, -, -⟩ := dumps_head v
      rw [hcs, List.cons_append, dropW_cons_of_not_ws c _ hws, ← List.cons_append,
        ← hcs]
      rw [hmem (k, v) (by simp) f3 (dumpsObjTail ps2 ++ '}' :: rest)
        (by show costJ v ≤ f3; omega) (stopOk_objTail ps2 rest)]
      rw [show (match some ((v : JValue), dumpsObjTail ps2 ++ '}' :: rest) with
        | some (v2, r3) => parseObjRest f3 (dictUpd [] k v2) r3
        | none => none) = parseObjRest f3 (dictUpd [] k v)
          (dumpsObjTail ps2 ++ '}' :: rest) from rfl]
      rw [show dictUpd [] k v = [(k, v)] from rfl]
      obtain ⟨hcon, hnd2⟩ := nodupKeys_cons k (ps2.map Prod.fst)
        (by simpa using hwp.2)
      rw [objTail_round ps2 f3 [(k, v)] rest (by omega)
        (fun q hq => hmem q (by simp [hq]))
        (fun q hq => alookup_single_none q.1 k v (by
          intro e
          exact contains_false_not_mem _ _ hcon
            (e ▸ List.mem_map_of_mem Prod.fst hq)))
        hnd2]
      simp

/-- `json.loads` inverts `json.dumps` on every well-formed value: the
fuel supplied by `loads` covers the cost of the serialization, there
is no surrounding whitespace, and nothing trails the value. -/
theorem loads_dumps (v : JValue) (hw : wfJ v = true) : loads (dumps v) = some v := by
  obtain ⟨c, cs, hcs, hws, -, -⟩ := dumps_head v
  have hrt := rt_of_wf (sizeOf v) v le_rfl hw (2 * (dumps v).length + 4) []
    (by have h1 := costJ_le (sizeOf v) v le_rfl; omega) (by decide)
  rw [List.append_nil] at hrt
  rw [loads.eq_def]
  rw [hcs, dropW_cons_of_not_ws c _ hws, ← hcs]
  rw [hcs, List.length_cons, ← hcs] at hrt ⊢
  rw [hrt]
  rfl

/-! ## Fenced-block extraction of a serialized object (spec section 8) -/

/-- A reply that is exactly one fenced code block holding `body`, the
fence optionally tagged `json`. -/
def fenceWrap (tag : Bool) (body : List Char) : List Char :=
  btick :: btick :: btick ::
    ((if tag then ['j', 's', 'o', 'n'] else []) ++ '\n' ::
      (body ++ '\n' :: btick :: btick :: btick :: []))

theorem digit_not_pyws (k : Nat) (hk : k < 10) :
    isPyWs (Char.ofNat (48 + k)) = false := by
  have ht : (Char.ofNat (48 + k)).toNat = 48 + k :=
    toNat_ofNat_small _ (by omega)
  simp [isPyWs, ht]
  omega

theorem numHead_not_pyws (c : Char)
    (h : c.toNat = 45 ∨ (48 ≤ c.toNat ∧ c.toNat ≤ 57)) : isPyWs c = false := by
  simp [isPyWs]
  omega

/-- Head of a serialized value, against the wider `\s` class of the
`re` module. -/
theorem dumps_head_pyws (v : JValue) : ∃ c cs, dumps v = c :: cs ∧
    isPyWs c = false := by
  cases v with
  | null => exact ⟨'n', _, rfl, by decide⟩
  | bool b => cases b with
    | true => exact ⟨'t', _, rfl, by decide⟩
    | false => exact ⟨'f', _, rfl, by decide⟩
  | num n =>
    obtain ⟨c, cs, hcs, hp⟩ := intDec_head n
    exact ⟨c, cs, by rw [show dumps (JValue.num n) = intDec n from rfl, hcs],
      numHead_not_pyws c hp⟩
  | fnum m e =>
    obtain ⟨c, cs, hcs, hp⟩ := intDec_head m
    refine ⟨c, cs ++ 'e' :: intDec e, ?_, numHead_not_pyws c hp⟩
    rw [show dumps (JValue.fnum m e) = intDec m ++ 'e' :: intDec e from rfl, hcs]
    rfl
  | nan => exact ⟨'N', _, rfl, by decide⟩
  | inf neg => cases neg with
    | true => exact ⟨'-', _, rfl, by decide⟩
    | false => exact ⟨'I', _, rfl, by decide⟩
  | str t => exact ⟨'\"', _, rfl, by decide⟩
  | arr xs => cases xs with
    | nil => exact ⟨'[', _, rfl, by decide⟩
    | cons x t => exact ⟨'[', _, rfl, by decide⟩
  | obj ps => cases ps with
    | nil => exact ⟨'\x7b', _, rfl, by decide⟩
    | cons p t =>
      obtain ⟨k, v2⟩ := p
      exact ⟨'\x7b', _, rfl, by decide⟩

theorem natDigits_rev (n : Nat) : ∃ k rs, k < 10 ∧
    (natDigits n).reverse = Char.ofNat (48 + k) :: rs := by
  rw [natDigits, natDigitsF]
  by_cases h : n < 10
  · rw [if_pos h]
    exact ⟨n, [], h, rfl⟩
  · rw [if_neg h]
    exact ⟨n % 10, (natDigitsF n (n / 10)).reverse, Nat.mod_lt _ (by omega),
      by simp⟩

theorem intDec_rev (n : Int) : ∃ c rs, (intDec n).reverse = c :: rs ∧
    isPyWs c = false := by
  by_cases hn : n < 0
  · rw [intDec, if_pos hn]
    obtain ⟨k, rs, hk, hrs⟩ := natDigits_rev n.natAbs
    refine ⟨_, rs ++ ['-'], ?_, digit_not_pyws k hk⟩
    simp [List.reverse_cons, hrs]
  · rw [intDec, if_neg hn]
    obtain ⟨k, rs, hk, hrs⟩ := natDigits_rev n.toNat
    exact ⟨_, rs, hrs, digit_not_pyws k hk⟩

/-- Last character of a serialized value: never whitespace, so the
trailing `\s*` of the fence pattern takes only the newline added by
the fence itself. -/
theorem dumps_rev (v : JValue) : ∃ c rs, (dumps v).reverse = c :: rs ∧
    isPyWs c = false := by
  cases v with
  | null => exact ⟨'l', _, rfl, by decide⟩
  | bool b => cases b with
    | true => exact ⟨'e', _, rfl, by decide⟩
    | false => exact ⟨'e', _, rfl, by decide⟩
  | num n =>
    obtain ⟨c, rs, hr, hw⟩ := intDec_rev n
    exact ⟨c, rs, hr, hw⟩
  | fnum m e =>
    obtain ⟨c, rs, hr, hw⟩ := intDec_rev e
    refine ⟨c, rs ++ 'e' :: (intDec m).reverse, ?_, hw⟩
    rw [show dumps (JValue.fnum m e) = intDec m ++ 'e' :: intDec e from rfl]
    simp [hr]
  | nan => exact ⟨'N', _, rfl, by decide⟩
  | inf neg => cases neg with
    | true => exact ⟨'y', _, rfl, by decide⟩
    | false => exact ⟨'y', _, rfl, by decide⟩
  | str t =>
    refine ⟨'\"', (escStr t).reverse ++ ['\"'], ?_, by decide⟩
    rw [show dumps (JValue.str t) = '\"' :: (escStr t ++ ['\"']) from rfl]
    simp
  | arr xs => cases xs with
    | nil => exact ⟨']', _, rfl, by decide⟩
    | cons x t =>
      refine ⟨']', (dumps x ++ dumpsArrTail t).reverse ++ ['['], ?_, by decide⟩
      rw [show dumps (JValue.arr (x :: t)) =
        '[' :: (dumps x ++ dumpsArrTail t ++ [']']) from rfl]
      simp
  | obj ps => cases ps with
    | nil => exact ⟨'\x7d', _, rfl, by decide⟩
    | cons p t =>
      obtain ⟨k, v2⟩ := p
      refine ⟨'\x7d', (dumpsStr k ++ ':' :: ' ' :: dumps v2 ++
        dumpsObjTail t).reverse ++ ['\x7b'], ?_, by decide⟩
      rw [show dumps (JValue.obj ((k, v2) :: t)) =
        '\x7b' :: (dumpsStr k ++ ':' :: ' ' :: dumps v2 ++ dumpsObjTail t ++
          ['\x7d']) from rfl]
      simp

/-- A trailing newline after a non-whitespace character is exactly what
the trailing `\s*` strips. -/
theorem stripTrail_nl (s : List Char) (c : Char) (rs : List Char)
    (h : s.reverse = c :: rs) (hc : isPyWs c = false) :
    stripTrailPyWs (s ++ ['\n']) = s := by
  rw [stripTrailPyWs, List.reverse_append, h]
  show (List.dropWhile isPyWs ('\n' :: c :: rs)).reverse = s
  rw [List.dropWhile_cons]
  simp only [show isPyWs '\n' = true from rfl, if_true]
  rw [List.dropWhile_cons]
  simp only [hc, Bool.false_eq_true, if_false]
  rw [← h, List.reverse_reverse]

/-- Position of the closing fence after fence-free content followed by
one newline. -/
theorem firstFenceIdx_concat (s : List Char) (h : firstFenceIdx s = none) :
    firstFenceIdx (s ++ '\n' :: btick :: btick :: btick :: []) =
      some (s.length + 1) := by
  induction s with
  | nil => rfl
  | cons a t ih =>
    rw [firstFenceIdx] at h
    by_cases hs : startsFence (a :: t) = true
    · rw [if_pos hs] at h
      exact absurd h (by simp)
    · rw [if_neg hs] at h
      have h2 : firstFenceIdx t = none := by
        cases he : firstFenceIdx t with
        | none => rfl
        | some j => rw [he] at h; simp at h
      have hsf : startsFence
          (a :: (t ++ '\n' :: btick :: btick :: btick :: [])) = false := by
        cases t with
        | nil => simp +decide [startsFence]
        | cons b t2 => cases t2 with
          | nil => simp +decide [startsFence]
          | cons c2 t3 =>
            simp only [startsFence, List.cons_append] at hs ⊢
            simpa using hs
      rw [List.cons_append, firstFenceIdx, hsf, if_neg (by simp), ih h2]
      simp only [List.length_cons, Option.map_some]
      rfl

/-- The fence search on a single-fence reply returns the body: the
match starts at the opening fence, `json` and the leading newline are
dropped, the lazy group stops at the closing fence, and the trailing
newline goes to the second `\s*`. -/
theorem findFenced_wrap (tag : Bool) (body : List Char)
    (hb : firstFenceIdx body = none)
    (c : Char) (cs : List Char) (hcs : body = c :: cs) (hpw : isPyWs c = false)
    (d : Char) (rs : List Char) (hrev : body.reverse = d :: rs)
    (hdw : isPyWs d = false) :
    findFencedBlock (fenceWrap tag body) = some body := by
  have hdrop : List.dropWhile isPyWs
      ('\n' :: (body ++ '\n' :: btick :: btick :: btick :: [])) =
      body ++ '\n' :: btick :: btick :: btick :: [] := by
    rw [List.dropWhile_cons]
    simp only [show isPyWs '\n' = true from rfl, if_true]
    rw [hcs, List.cons_append, List.dropWhile_cons]
    simp only [hpw, Bool.false_eq_true, if_false]
  have hcontent : fenceContentAfterOpen
      ('\n' :: (body ++ '\n' :: btick :: btick :: btick :: [])) = some body := by
    show (firstFenceIdx (List.dropWhile isPyWs
        ('\n' :: (body ++ '\n' :: btick :: btick :: btick :: [])))).map
      (fun p => stripTrailPyWs ((List.dropWhile isPyWs
        ('\n' :: (body ++ '\n' :: btick :: btick :: btick :: []))).take p)) =
      some body
    rw [hdrop, firstFenceIdx_concat body hb]
    show some (stripTrailPyWs
      ((body ++ '\n' :: btick :: btick :: btick :: []).take (body.length + 1))) =
      some body
    rw [List.take_append 1]
    show some (stripTrailPyWs (body ++ ['\n'])) = some body
    rw [stripTrail_nl body d rs hrev hdw]
  cases tag with
  | false =>
    show (match fenceContentAfterOpen (('\n' : Char) ::
        (body ++ '\n' :: btick :: btick :: btick :: [])) with
      | some g => some g
      | none => findFencedBlock (btick :: btick :: '\n' ::
          (body ++ '\n' :: btick :: btick :: btick :: []))) = some body
    rw [hcontent]
  | true =>
    have hcontent2 : fenceContentAfterOpen ('j' :: 's' :: 'o' :: 'n' :: '\n' ::
        (body ++ '\n' :: btick :: btick :: btick :: [])) = some body := hcontent
    show (match fenceContentAfterOpen (('j' : Char) :: 's' :: 'o' :: 'n' :: '\n' ::
        (body ++ '\n' :: btick :: btick :: btick :: [])) with
      | some g => some g
      | none => findFencedBlock (btick :: btick :: 'j' :: 's' :: 'o' :: 'n' ::
          '\n' :: (body ++ '\n' :: btick :: btick :: btick :: []))) = some body
    rw [hcontent2]

/-- Claim C2: encode-then-extract identity.  A well-formed value
serialized by `json.dumps` and wrapped in one fenced block (the
triple-backtick marker optionally tagged `json`), with no fence marker
inside the serialization — so the block is the reply's only one — is
recovered exactly by `_extract_json`. -/
theorem extractJson_fenceWrap (tag : Bool) (v : JValue) (hw : wfJ v = true)
    (hb : firstFenceIdx (dumps v) = none) :
    extractJson (fenceWrap tag (dumps v)) = v := by
  obtain ⟨c, cs, hcs, hpw⟩ := dumps_head_pyws v
  obtain ⟨d, rs, hrev, hdw⟩ := dumps_rev v
  have hf := findFenced_wrap tag (dumps v) hb c cs hcs hpw d rs hrev hdw
  have hbody : extractJsonBody (fenceWrap tag (dumps v)) = some v := by
    rw [extractJsonBody.eq_def, hf]
    show loads (dumps v) = some v
    exact loads_dumps v hw
  rw [extractJson.eq_def, hbody]

/-! ## The pipeline (`DeepResearchAgent`)

Python values that flow between the steps keep their `json.loads`
shape (`JValue`); the agent state is the four registries, association
lists with `dict`-assignment semantics.  A text-generation call is an
external collaborator: it enters each step as an
`Except Unit (List Char)` (service failure, or the reply text), and
document retrieval enters as an `Except Unit (List RDoc)` (the spec
treats search and mock generation as external).  Python exceptions
raised inside a step's `try` are propagated as failures of the
intermediate computations (`Option`/`Except`), with the state at the
raise kept, since registry writes made before an exception survive.
The wall clock `int(time.time())`, used only inside generated ids and
timestamps, is abstracted to one `Nat` parameter per run. -/

/-- Python truthiness of a loaded JSON value. -/
def pyTruthy : JValue → Bool
  | .null => false
  | .bool b => b
  | .num n => n ≠ 0
  | .fnum m _ => m ≠ 0
  | .nan => true
  | .inf _ => true
  | .str s => s ≠ []
  | .arr xs => xs ≠ []
  | .obj ps => ps ≠ []

/-- Python iteration over a loaded JSON value: lists yield elements,
strings yield one-character strings, dicts yield keys; other values
raise `TypeError` (`none`). -/
def pyIter : JValue → Option (List JValue)
  | .arr xs => some xs
  | .str s => some (s.map (fun c => .str [c]))
  | .obj ps => some (ps.map (fun p => .str p.1))
  | _ => none

mutual

/-- Python `repr` of a loaded JSON value, structurally: exact for
`None`, booleans and ints; string `repr` is modeled without the
escape/quote-choice refinements and float `repr` without the
shortest-digits search, neither of which any statement below
evaluates. -/
def pyRepr : JValue → List Char
  | .null => ("None").toList
  | .bool true => ("True").toList
  | .bool false => ("False").toList
  | .num n => intDec n
  | .fnum m e => intDec m ++ 'e' :: intDec e
  | .nan => ("nan").toList
  | .inf true => ("-inf").toList
  | .inf false => ("inf").toList
  | .str s => '\'' :: (s ++ ['\''])
  | .arr xs => '[' :: (pyReprL xs ++ [']'])
  | .obj ps => '\x7b' :: (pyReprP ps ++ ['\x7d'])

def pyReprL : List JValue → List Char
  | [] => []
  | [x] => pyRepr x
  | x :: y :: t => pyRepr x ++ ',' :: ' ' :: pyReprL (y :: t)

def pyReprP : List (List Char × JValue) → List Char
  | [] => []
  | [(k, v)] => '\'' :: (k ++ '\'' :: ':' :: ' ' :: pyRepr v)
  | (k, v) :: q :: t =>
    '\'' :: (k ++ '\'' :: ':' :: ' ' :: pyRepr v ++ ',' :: ' ' :: pyReprP (q :: t))

end

/-- Python `str()` of a loaded JSON value (`f"...{v}..."`). -/
def pyStr : JValue → List Char
  | .str s => s
  | v => pyRepr v

/-- ASCII case of Python `str.lower` (every string a claim evaluates
is ASCII). -/
def pyLower (s : List Char) : List Char :=
  s.map (fun c => if 65 ≤ c.toNat ∧ c.toNat ≤ 90 then Char.ofNat (c.toNat + 32)
    else c)

/-- `needle in haystack` on strings. -/
def strIn (n : List Char) : List Char → Bool
  | [] => n == []
  | c :: t => n.isPrefixOf (c :: t) || strIn n t

/-- First index where `sep` occurs. -/
def findSub (sep : List Char) : List Char → Option Nat
  | [] => if sep = [] then some 0 else none
  | c :: t => if sep.isPrefixOf (c :: t) then some 0 else (findSub sep t).map (· + 1)

def splitSepF (sep : List Char) : Nat → List Char → List (List Char)
  | 0, s => [s]
  | f + 1, s =>
    match findSub sep s with
    | none => [s]
    | some i => s.take i :: splitSepF sep f (s.drop (i + sep.length))

/-- Python `str.split(sep)` with a non-empty separator: every
occurrence splits, empty chunks kept. -/
def splitSep (sep s : List Char) : List (List Char) := splitSepF sep (s.length + 1) s

def splitAnd (s : List Char) : List (List Char) := splitSep ((" and ").toList) s

def splitWsF : Nat → List Char → List (List Char)
  | 0, _ => []
  | f + 1, s =>
    match s.dropWhile isPyWs with
    | [] => []
    | c :: t => (c :: t.takeWhile (fun d => !isPyWs d)) ::
        splitWsF f (t.dropWhile (fun d => !isPyWs d))

/-- Python `str.split()`: whitespace runs split, empty chunks
discarded. -/
def splitWs (s : List Char) : List (List Char) := splitWsF (s.length + 1) s

def joinSep (sep : List Char) : List (List Char) → List Char
  | [] => []
  | [x] => x
  | x :: y :: t => x ++ sep ++ joinSep sep (y :: t)

/-- Python `sep.join(v)` on a loaded JSON value: `TypeError` unless
every iterated element is a string. -/
def pyJoin (sep : List Char) (v : JValue) : Option (List Char) :=
  match pyIter v with
  | none => none
  | some items =>
    match items.mapM (fun x => match x with | .str s => some s | _ => none) with
    | none => none
    | some strs => some (joinSep sep strs)

def dedupAux : List (List Char) → List (List Char) → List (List Char)
  | _, [] => []
  | seen, x :: t =>
    if seen.contains x then dedupAux seen t else x :: dedupAux (x :: seen) t

/-- `list(set(l))` for strings: the distinct elements (modeled in
first-occurrence order; the `set` order of CPython is unspecified and
no statement below depends on it). -/
def pyDedup (l : List (List Char)) : List (List Char) := dedupAux [] l

/-- Numeric clock rendered into an id (`f"..._\x7bint(time.time())\x7d"`). -/
def clockStr (t : Nat) : List Char := natDigits t

structure RDoc where
  id : List Char
  title : List Char
  authors : List (List Char)
  publication_date : List Char
  source : List Char
  content : List Char
  abstract : List Char
  url : Option (List Char) := none
  citation : Option (List Char) := none
  relevance_score : Option JValue := none
deriving Repr, DecidableEq

structure RTopic where
  id : List Char
  query : JValue
  subtopics : JValue
  keywords : JValue
  scope : JValue
deriving Repr, DecidableEq

structure RFinding where
  id : List Char
  content : JValue
  source_documents : List (List Char)
  confidence : JValue
  tags : List JValue
deriving Repr, DecidableEq

structure RSynthesis where
  id : List Char
  title : JValue
  summary : JValue
  key_findings : List RFinding
  document_coverage : List (List Char)
  gaps_identified : JValue
  future_directions : JValue
  bibliography : JValue
deriving Repr, DecidableEq

structure PlanRecord where
  plan : JValue
  created_at : List Char
  research_topic : RTopic
deriving Repr, DecidableEq

structure AgentState where
  documents : List (List Char × RDoc)
  findings : List (List Char × RFinding)
  research_plans : List (List Char × PlanRecord)
  syntheses : List (List Char × RSynthesis)
deriving Repr, DecidableEq

def emptyState : AgentState := ⟨[], [], [], []⟩

/-- Python `dict` assignment on an association list: replace in place
or append. -/
def dictUpdG {α : Type} (ps : List (List Char × α)) (k : List Char) (v : α) :
    List (List Char × α) :=
  match ps with
  | [] => [(k, v)]
  | (k2, v2) :: t => if k2 = k then (k, v) :: t else (k2, v2) :: dictUpdG t k v

def alookupG {α : Type} (ps : List (List Char × α)) (k : List Char) : Option α :=
  match ps with
  | [] => none
  | (k2, v2) :: t => if k2 = k then some v2 else alookupG t k

/-- `dict.get(k, d)`. -/
def jgetD (ps : List (List Char × JValue)) (k : List Char) (d : JValue) : JValue :=
  (alookup ps k).getD d

/-! ### Step 1: `_create_research_plan` -/

def topicId (t : Nat) : List Char := ("topic_").toList ++ clockStr t

def defaultScope : JValue :=
  .obj [(("time_range").toList, .arr [.str (("2020").toList), .str (("2023").toList)]),
        (("domains").toList, .arr [.str (("General").toList)]),
        (("excluded_areas").toList, .arr [])]

/-- The minimal topic of the step's `except` arm. -/
def fallbackTopic (q : List Char) (t : Nat) : RTopic :=
  ⟨topicId t, .str q, .arr [.str q], .arr ((splitWs q).map .str), defaultScope⟩

/-- `[query.split(" and ")[0], query.split(" and ")[-1]]`. -/
def planDefaultSubtopics (q : List Char) : JValue :=
  .arr [.str ((splitAnd q).headD []), .str ((splitAnd q).getLastD [])]

def createPlanStep (svcRes : Except Unit (List Char)) (q depth : List Char)
    (t : Nat) (st : AgentState) : RTopic × AgentState :=
  match svcRes with
  | .error _ => (fallbackTopic q t, st)
  | .ok r =>
    match extractJson r with
    | .obj ps =>
      let topic : RTopic :=
        ⟨topicId t,
         jgetD ps (("main_query").toList) (.str q),
         jgetD ps (("subtopics").toList) (planDefaultSubtopics q),
         jgetD ps (("keywords").toList) (.arr ((splitWs q).map .str)),
         jgetD ps (("scope").toList) defaultScope⟩
      let rp := dictUpdG st.research_plans (topicId t) ⟨.obj ps, clockStr t, topic⟩
      (topic, { st with research_plans := rp })
    | _ => (fallbackTopic q t, st)

/-! ### Step 2: `_retrieve_documents` (retrieval itself is the external
collaborator of spec section 9; the step stores what it got and falls
back to the empty list) -/

def retrieveStep (docsRes : Except Unit (List RDoc)) (st : AgentState) :
    List RDoc × AgentState :=
  match docsRes with
  | .error _ => ([], st)
  | .ok docs =>
    let dm := docs.foldl (fun m d => dictUpdG m d.id d) st.documents
    (docs, { st with documents := dm })

/-! ### Step 3: `_extract_information` -/

def findingId (docId : List Char) (i : Nat) : List Char :=
  ("finding_").toList ++ docId ++ '_' :: natDigits i

/-- The single default entry used when `key_findings` is missing or
falsy. -/
def defaultKeyFindings (topic : RTopic) : JValue :=
  .arr [.obj
    [(("finding").toList,
      .str (("The document discusses ").toList ++ pyStr topic.query ++ ['.'])),
     (("evidence").toList, .str (("Not specified").toList)),
     (("relevance").toList,
      .str (("Directly related to the research question").toList)),
     (("confidence").toList, .fnum 7 (-1))]]

/-- `[research_topic.query] + [st for st in subtopics if st.lower() in
finding_data.get("finding", "").lower()]`; `none` is the `TypeError`
of `.lower()` on a non-string. -/
def tagsComp (topic : RTopic) (fd : List (List Char × JValue)) :
    Option (List JValue) :=
  match pyIter topic.subtopics with
  | none => none
  | some subs =>
    let fv := jgetD fd (("finding").toList) (.str [])
    match subs.mapM (fun sv =>
      match sv with
      | .str ss =>
        match fv with
        | .str fs =>
          some (if strIn (pyLower ss) (pyLower fs) then some (JValue.str ss)
            else none)
        | _ => none
      | _ => none) with
    | none => none
    | some opts => some (topic.query :: opts.filterMap id)

def goFindings (topic : RTopic) (d : RDoc) :
    List JValue → Nat → List RFinding → AgentState →
      Except AgentState (List RFinding × AgentState)
  | [], _, acc, st => .ok (acc, st)
  | fdv :: rest, i, acc, st =>
    match fdv with
    | .obj fd =>
      match tagsComp topic fd with
      | none => .error st
      | some tags =>
        let f : RFinding :=
          ⟨findingId d.id i,
           jgetD fd (("finding").toList) (.str (("No finding specified").toList)),
           [d.id],
           jgetD fd (("confidence").toList) (.fnum 7 (-1)),
           tags⟩
        goFindings topic d rest (i + 1) (acc ++ [f])
          { st with findings := dictUpdG st.findings f.id f }
    | _ => .error st

def extractOneDoc (topic : RTopic) (d : RDoc) (reply : List Char)
    (acc : List RFinding) (st : AgentState) :
    Except AgentState (List RFinding × AgentState) :=
  match extractJson reply with
  | .obj ps =>
    let kf0 := jgetD ps (("key_findings").toList) (.arr [])
    let kf := if pyTruthy kf0 then kf0 else defaultKeyFindings topic
    match pyIter kf with
    | none => .error st
    | some items => goFindings topic d items 0 acc st
  | _ => .error st

def extractDocsLoop (svc : Nat → Except Unit (List Char)) (topic : RTopic) :
    List RDoc → Nat → List RFinding → AgentState →
      Except AgentState (List RFinding × AgentState)
  | [], _, acc, st => .ok (acc, st)
  | d :: rest, ix, acc, st =>
    match pyJoin [',', ' '] topic.subtopics with
    | none => .error st
    | some _ =>
      match svc ix with
      | .error _ => .error st
      | .ok reply =>
        match extractOneDoc topic d reply acc st with
        | .error st2 => .error st2
        | .ok (acc2, st2) => extractDocsLoop svc topic rest (ix + 1) acc2 st2

def fallbackFinding (topic : RTopic) (docs : List RDoc) (t : Nat) : RFinding :=
  ⟨("finding_fallback_").toList ++ clockStr t,
   .str (("General information about ").toList ++ pyStr topic.query),
   (docs.take 1).map RDoc.id, .fnum 5 (-1), [topic.query]⟩

def extractInfoStep (svc : Nat → Except Unit (List Char)) (docs : List RDoc)
    (topic : RTopic) (t : Nat) (st : AgentState) :
    List RFinding × AgentState :=
  if docs = [] then ([], st)
  else
    match extractDocsLoop svc topic docs 0 [] st with
    | .ok (fs, st2) => (fs, st2)
    | .error st2 => ([fallbackFinding topic docs t], st2)

/-! ### Step 4: `_synthesize_findings` (with `_create_default_synthesis`) -/

def synthId (t : Nat) : List Char := ("synthesis_").toList ++ clockStr t

def defaultSynthesis (topic : RTopic) (t : Nat) : RSynthesis :=
  ⟨("synthesis_default_").toList ++ clockStr t,
   .str (("Research on ").toList ++ pyStr topic.query),
   .str (("This is a default synthesis for ").toList ++ pyStr topic.query ++ ['.']),
   [⟨("default_finding_").toList ++ clockStr t,
     .str (("General information about ").toList ++ pyStr topic.query ++ ['.']),
     [], .fnum 5 (-1), [.str (("General").toList)]⟩],
   [],
   .arr [.str (("More research needed on ").toList ++ pyStr topic.query ++ ['.'])],
   .arr [.str (("Expand the scope of research.").toList)],
   .arr []⟩

/-- The `try` branch of `_format_citation` (its `except` is unreachable
for the model's string-typed documents). -/
def formatCitation (d : RDoc) : List Char :=
  joinSep [',', ' '] d.authors ++ (". (").toList ++ d.publication_date ++
    ("). ").toList ++ d.title ++ (". ").toList ++ d.source ++ ['.']

def findingsData (st : AgentState) : List RFinding → List JValue
  | [] => []
  | f :: rest =>
    match f.source_documents with
    | [] => findingsData st rest
    | did :: _ =>
      match alookupG st.documents did with
      | none => findingsData st rest
      | some d =>
        .obj [(("finding").toList, f.content),
              (("source").toList, .str d.title),
              (("authors").toList, .str (joinSep [',', ' '] d.authors)),
              (("publication_date").toList, .str d.publication_date),
              (("confidence").toList, f.confidence)] :: findingsData st rest

def synthDocIds (st : AgentState) (findings : List RFinding) :
    List (List Char) :=
  pyDedup (((findings.map (fun f => f.source_documents)).flatten).filter
    (fun did => (alookupG st.documents did).isSome))

def defaultSbs (topic : RTopic) (subs : List JValue) : JValue :=
  .arr (subs.map (fun sv => .obj
    [(("subtopic").toList, sv),
     (("synthesis").toList,
      .str (("Analysis of ").toList ++ pyStr sv ++ (" in relation to ").toList ++
        pyStr topic.query ++ ['.'])),
     (("key_insights").toList,
      .arr [.str (("Key insight about ").toList ++ pyStr sv ++ ['.'])])]))

def synKfInner (docIds : List (List Char)) (sp : List (List Char × JValue))
    (i : Nat) : List JValue → Nat → List RFinding
  | [], _ => []
  | insight :: rest, j =>
    ⟨("syn_finding_").toList ++ natDigits i ++ '_' :: natDigits j,
     insight, docIds, .fnum 9 (-1),
     [jgetD sp (("subtopic").toList) (.str (("General").toList))]⟩ ::
      synKfInner docIds sp i rest (j + 1)

def synKfLoop (docIds : List (List Char)) :
    List JValue → Nat → Option (List RFinding)
  | [], _ => some []
  | sv :: rest, i =>
    match sv with
    | .obj sp =>
      let insights := jgetD sp (("key_insights").toList) (.arr [])
      let cur := if pyTruthy insights then
          match pyIter insights with
          | none => none
          | some ins => some (synKfInner docIds sp i ins 0)
        else some []
      match cur with
      | none => none
      | some cs =>
        match synKfLoop docIds rest (i + 1) with
        | none => none
        | some more => some (cs ++ more)
    | _ => none

def synthesizeStep (svcRes : Except Unit (List Char))
    (findings : List RFinding) (topic : RTopic) (t : Nat) (st : AgentState) :
    RSynthesis × AgentState :=
  if findings = [] then (defaultSynthesis topic t, st)
  else
    if findingsData st findings = [] then (defaultSynthesis topic t, st)
    else
      match pyJoin [',', ' '] topic.subtopics with
      | none => (defaultSynthesis topic t, st)
      | some _ =>
        match svcRes with
        | .error _ => (defaultSynthesis topic t, st)
        | .ok r =>
          match extractJson r with
          | .obj ps =>
            let sbs0 := jgetD ps (("synthesis_by_subtopic").toList) (.arr [])
            let sbsRes : Option JValue :=
              if !pyTruthy sbs0 && pyTruthy topic.subtopics then
                match pyIter topic.subtopics with
                | none => none
                | some subs => some (defaultSbs topic subs)
              else some sbs0
            match sbsRes with
            | none => (defaultSynthesis topic t, st)
            | some sbs =>
              let docIds := synthDocIds st findings
              match pyIter sbs with
              | none => (defaultSynthesis topic t, st)
              | some sbsL =>
                match synKfLoop docIds sbsL 0 with
                | none => (defaultSynthesis topic t, st)
                | some kf0 =>
                  let kf := if kf0 = [] then
                      [⟨("syn_finding_default").toList,
                        .str (("General insight about ").toList ++
                          pyStr topic.query ++ ['.']),
                        docIds, .fnum 7 (-1), [.str (("General").toList)]⟩]
                    else kf0
                  let syn : RSynthesis :=
                    ⟨synthId t,
                     jgetD ps (("title").toList)
                       (.str (("Research on ").toList ++ pyStr topic.query)),
                     jgetD ps (("executive_summary").toList)
                       (.str (("Summary of research on ").toList ++
                         pyStr topic.query ++ ['.'])),
                     kf, docIds,
                     jgetD ps (("research_gaps").toList)
                       (.arr [.str (("Further research needed on ").toList ++
                         pyStr topic.query ++ ['.'])]),
                     jgetD ps (("future_directions").toList)
                       (.arr [.str (("Expand the scope of research.").toList)]),
                     .arr ((docIds.filterMap (alookupG st.documents)).map
                       (fun d => .str (formatCitation d)))⟩
                  (syn, { st with syntheses := dictUpdG st.syntheses (synthId t) syn })
          | _ => (defaultSynthesis topic t, st)

/-! ### Step 5: `_generate_insights` -/

/-- One of the two insight loops: findings stored under the fixed keys
`pattern_finding_i` / `application_finding_i`. -/
def insLoop (cov : List (List Char)) (pre : List Char) (conf : JValue)
    (tags : List JValue) :
    List JValue → Nat → AgentState → List RFinding × AgentState
  | [], _, st => ([], st)
  | p :: rest, i, st =>
    let f : RFinding := ⟨pre ++ natDigits i, p, cov, conf, tags⟩
    let step := insLoop cov pre conf tags rest (i + 1)
      { st with findings := dictUpdG st.findings f.id f }
    (f :: step.1, step.2)

def insightsStep (svcRes : Except Unit (List Char)) (syn : RSynthesis)
    (topic : RTopic) (st : AgentState) : RSynthesis × AgentState :=
  match svcRes with
  | .error _ => (syn, st)
  | .ok r =>
    match extractJson r with
    | .obj ps =>
      let fut := jgetD ps (("enhanced_future_directions").toList)
        syn.future_directions
      let pats := jgetD ps (("deeper_patterns").toList) (.arr [])
      match pyIter pats with
      | none => (syn, st)
      | some patL =>
        let r1 := insLoop syn.document_coverage (("pattern_finding_").toList)
          (.fnum 85 (-2)) [.str (("pattern").toList), .str (("insight").toList)]
          patL 0 st
        let apps := jgetD ps (("practical_applications").toList) (.arr [])
        match pyIter apps with
        | none => (syn, r1.2)
        | some appL =>
          let r2 := insLoop syn.document_coverage
            (("application_finding_").toList) (.fnum 8 (-1))
            [.str (("application").toList), .str (("insight").toList)]
            appL 0 r1.2
          (⟨syn.id, syn.title, syn.summary,
            syn.key_findings ++ r1.1 ++ r2.1,
            syn.document_coverage, syn.gaps_identified, fut,
            syn.bibliography⟩, r2.2)
    | _ => (syn, st)

/-! ### Step 6: `_format_research_output` -/

structure Metadata where
  research_question : JValue
  document_count : Nat
  finding_count : Nat
  generation_date : List Char
  research_id : List Char
deriving Repr, DecidableEq

structure FinalOutput where
  title : JValue
  executive_summary : JValue
  introduction : JValue
  methodology : JValue
  key_findings : JValue
  discussion : JValue
  research_gaps : JValue
  future_directions : JValue
  conclusion : JValue
  bibliography : JValue
  metadata : Metadata
deriving Repr, DecidableEq

/-- The step's `except` arm: it iterates `gaps_identified` and
`future_directions`, so it raises itself (`none`) when either is not
iterable. -/
def formatHandler (syn : RSynthesis) (t : Nat) : Option FinalOutput :=
  match pyIter syn.gaps_identified with
  | none => none
  | some gaps =>
    match pyIter syn.future_directions with
    | none => none
    | some futs =>
      some ⟨syn.title, syn.summary,
        .str (("Introduction to ").toList ++ pyStr syn.title),
        .str (("This research was conducted through a systematic review of literature.").toList),
        .str (joinSep ['\n']
          (syn.key_findings.map (fun f => '-' :: ' ' :: pyStr f.content))),
        .str (("Discussion of the findings and their implications.").toList),
        .str (joinSep ['\n'] (gaps.map (fun g => '-' :: ' ' :: pyStr g))),
        .str (joinSep ['\n'] (futs.map (fun g => '-' :: ' ' :: pyStr g))),
        .str (("In conclusion, this research on ").toList ++ pyStr syn.title ++
          (" provides valuable insights.").toList),
        syn.bibliography,
        ⟨syn.title, syn.document_coverage.length, syn.key_findings.length,
         clockStr t, syn.id⟩⟩

def formatStep (svcRes : Except Unit (List Char)) (syn : RSynthesis)
    (t : Nat) (st : AgentState) : Option FinalOutput :=
  match svcRes with
  | .error _ => formatHandler syn t
  | .ok r =>
    match extractJson r with
    | .obj ps =>
      some ⟨jgetD ps (("title").toList) syn.title,
        jgetD ps (("executive_summary").toList) syn.summary,
        jgetD ps (("introduction").toList)
          (.str (("Introduction to ").toList ++ pyStr syn.title)),
        jgetD ps (("methodology").toList) (.str (("Methodology section").toList)),
        jgetD ps (("key_findings").toList) (.str (("Key findings section").toList)),
        jgetD ps (("discussion").toList) (.str (("Discussion section").toList)),
        jgetD ps (("research_gaps").toList)
          (.str (("Research gaps section").toList)),
        jgetD ps (("future_directions").toList)
          (.str (("Future directions section").toList)),
        jgetD ps (("conclusion").toList) (.str (("Conclusion section").toList)),
        jgetD ps (("bibliography").toList) syn.bibliography,
        ⟨syn.title, syn.document_coverage.length, syn.key_findings.length,
         clockStr t, syn.id⟩⟩
    | _ => formatHandler syn t

/-! ### `conduct_research`: the strict six-step sequence; an exception
escaping the formatting step is re-raised to the caller (`none`). -/

def conductResearch (svcPlan : Except Unit (List Char))
    (docsRes : Except Unit (List RDoc))
    (svcX : Nat → Except Unit (List Char))
    (svcSyn svcIns svcFmt : Except Unit (List Char))
    (q depth : List Char) (t : Nat) (st : AgentState) :
    Option FinalOutput × AgentState :=
  let s1 := createPlanStep svcPlan q depth t st
  let s2 := retrieveStep docsRes s1.2
  let s3 := extractInfoStep svcX s2.1 s1.1 t s2.2
  let s4 := synthesizeStep svcSyn s3.1 s1.1 t s3.2
  let s5 := insightsStep svcIns s4.1 s1.1 s4.2
  (formatStep svcFmt s5.1 t s5.2, s5.2)

/-! ## The claims -/

/-- Claim C10: `_generate_insights` returns a synthesis whose `id`,
`title`, `summary`, `document_coverage`, `gaps_identified` and
`bibliography` equal the input's, on the success path and on the
exception path alike; `key_findings` is the input's list extended, and
only it and `future_directions` may differ. -/
theorem insightsStep_frame (svcRes : Except Unit (List Char))
    (syn : RSynthesis) (topic : RTopic) (st : AgentState) :
    (insightsStep svcRes syn topic st).1.id = syn.id ∧
    (insightsStep svcRes syn topic st).1.title = syn.title ∧
    (insightsStep svcRes syn topic st).1.summary = syn.summary ∧
    (insightsStep svcRes syn topic st).1.document_coverage =
      syn.document_coverage ∧
    (insightsStep svcRes syn topic st).1.gaps_identified =
      syn.gaps_identified ∧
    (insightsStep svcRes syn topic st).1.bibliography = syn.bibliography ∧
    ∃ ext, (insightsStep svcRes syn topic st).1.key_findings =
      syn.key_findings ++ ext := by
  cases svcRes with
  | error e =>
    exact ⟨rfl, rfl, rfl, rfl, rfl, rfl, [], by simp [insightsStep]⟩
  | ok r =>
    cases hej : extractJson r with
    | obj ps =>
      simp only [insightsStep, hej]
      cases h1 : pyIter (jgetD ps (("deeper_patterns").toList) (.arr [])) with
      | none =>
        exact ⟨rfl, rfl, rfl, rfl, rfl, rfl, [], by simp⟩
      | some patL =>
        cases h2 : pyIter (jgetD ps (("practical_applications").toList) (.arr [])) with
        | none =>
          exact ⟨rfl, rfl, rfl, rfl, rfl, rfl, [], by simp⟩
        | some appL =>
          simp only [h1, h2]
          refine ⟨trivial, trivial, trivial, trivial, trivial, trivial, _,
            List.append_assoc _ _ _⟩
    | null => simp [insightsStep, hej]
    | bool b => simp [insightsStep, hej]
    | num n => simp [insightsStep, hej]
    | fnum m e => simp [insightsStep, hej]
    | nan => simp [insightsStep, hej]
    | inf b => simp [insightsStep, hej]
    | str t2 => simp [insightsStep, hej]
    | arr xs => simp [insightsStep, hej]

/-- Claim C9: when the reply holds a fenced block whose contents fail
to parse, `_extract_json` goes straight to the `except` arm: the whole
`try` yields nothing (the brace search and the whole-reply parse are
never reached) and the fallback record is returned, whatever else the
reply contains. -/
theorem extractJson_fenced_invalid (t c : List Char)
    (hf : findFencedBlock t = some c) (hl : loads c = none) :
    extractJsonBody t = none ∧ extractJson t = fallbackRecord t := by
  have hb : extractJsonBody t = none := by
    rw [extractJsonBody.eq_def, hf]
    exact hl
  exact ⟨hb, by rw [extractJson.eq_def, hb]⟩

/-- A fence-wrapped non-JSON reply followed by a perfectly parseable
object: the fallback is returned even though the brace strategy would
have succeeded. -/
theorem extractJson_fenced_invalid_witness :
    findFencedBlock (fenceWrap true ['n', 'o'] ++
      ' ' :: '\x7b' :: '\"' :: 'a' :: '\"' :: ':' :: '1' :: '\x7d' :: []) =
      some ['n', 'o'] ∧
    loads ['n', 'o'] = none ∧
    (∃ sub, braceSearch (fenceWrap true ['n', 'o'] ++
        ' ' :: '\x7b' :: '\"' :: 'a' :: '\"' :: ':' :: '1' :: '\x7d' :: []) =
        some sub ∧ loads sub = some (.obj [(['a'], .num 1)])) ∧
    extractJson (fenceWrap true ['n', 'o'] ++
      ' ' :: '\x7b' :: '\"' :: 'a' :: '\"' :: ':' :: '1' :: '\x7d' :: []) =
      fallbackRecord (fenceWrap true ['n', 'o'] ++
        ' ' :: '\x7b' :: '\"' :: 'a' :: '\"' :: ':' :: '1' :: '\x7d' :: []) :=
  ⟨by decide, by decide,
   ⟨'\x7b' :: '\"' :: 'a' :: '\"' :: ':' :: '1' :: '\x7d' :: [], by decide,
    by decide⟩,
   (extractJson_fenced_invalid _ ['n', 'o'] (by decide) (by decide)).2⟩

/-- Claim C3: a reply with no fenced block, no brace span and no valid
JSON yields exactly the fallback record, whose `raw_text` is the reply
itself up to 500 characters and the truncation never exceeds 503. -/
theorem extractJson_no_json_fallback (t : List Char)
    (h1 : findFencedBlock t = none) (h2 : braceSearch t = none)
    (h3 : loads t = none) :
    extractJson t =
      .obj [(("error").toList, .str (("Failed to parse JSON").toList)),
            (("raw_text").toList, .str (truncRaw t))] ∧
    (t.length ≤ 500 → truncRaw t = t) ∧
    (truncRaw t).length ≤ 503 := by
  have hb : extractJsonBody t = none := by
    rw [extractJsonBody.eq_def, h1, h2]
    exact h3
  refine ⟨by rw [extractJson.eq_def, hb]; rfl, ?_, ?_⟩
  · intro hle
    rw [truncRaw, if_neg (by omega)]
  · rw [truncRaw]
    by_cases h : t.length > 500
    · rw [if_pos h]
      simp [List.length_take]
    · rw [if_neg h]
      omega

/-- The spec's own scenario: the reply `"I could not comply."`. -/
theorem extractJson_no_json_fallback_witness :
    findFencedBlock (("I could not comply.").toList) = none ∧
    braceSearch (("I could not comply.").toList) = none ∧
    loads (("I could not comply.").toList) = none ∧
    extractJson (("I could not comply.").toList) =
      .obj [(("error").toList, .str (("Failed to parse JSON").toList)),
            (("raw_text").toList, .str (("I could not comply.").toList))] :=
  ⟨by decide, by decide, by decide, by
    have h := extractJson_no_json_fallback (("I could not comply.").toList)
      (by decide) (by decide) (by decide)
    rw [h.1, h.2.1 (by decide)]⟩

/-- Claim C1 counterexample: on the reply `42` the whole-reply parse
succeeds with an `int`, which `_extract_json` returns as is — not a
dictionary, contradicting both the declared return type and the
spec's "always a mapping". -/
theorem extractJson_not_dict :
    extractJson ['4', '2'] = JValue.num 42 ∧
    ∀ ps : List (List Char × JValue), JValue.num 42 ≠ JValue.obj ps :=
  ⟨by decide, fun ps h => JValue.noConfusion h⟩

/-- The spec's scenario for the round-trip: the fenced reply holding
`\x7b"main_query": "X", "subtopics": ["a","b"]\x7d`, with the `json` tag. -/
theorem extractJson_fenceWrap_witness :
    wfJ (.obj [(("main_query").toList, .str ['X']),
               (("subtopics").toList, .arr [.str ['a'], .str ['b']])]) = true ∧
    firstFenceIdx (dumps (.obj [(("main_query").toList, .str ['X']),
               (("subtopics").toList, .arr [.str ['a'], .str ['b']])])) = none ∧
    extractJson (fenceWrap true (dumps (.obj [(("main_query").toList, .str ['X']),
               (("subtopics").toList, .arr [.str ['a'], .str ['b']])]))) =
      .obj [(("main_query").toList, .str ['X']),
            (("subtopics").toList, .arr [.str ['a'], .str ['b']])] :=
  ⟨by decide, by decide,
   extractJson_fenceWrap true _ (by decide) (by decide)⟩

/-- Head and lastness of the index found by `lastBraceIdx`. -/
theorem lastBraceIdx_spec (s : List Char) : ∀ j, lastBraceIdx s = some j →
    (s.drop j).head? = some '\x7d' ∧ '\x7d' ∉ s.drop (j + 1) := by
  induction s with
  | nil => intro j h; simp [lastBraceIdx] at h
  | cons c t ih =>
    intro j h
    rw [lastBraceIdx] at h
    cases ht : lastBraceIdx t with
    | some j2 =>
      rw [ht] at h
      obtain rfl : j = j2 + 1 := by
        cases h
        rfl
      have := ih j2 ht
      simpa using this
    | none =>
      rw [ht] at h
      by_cases hc : c = '\x7d'
      · rw [if_pos hc] at h
        obtain rfl : j = 0 := by
          cases h
          rfl
        refine ⟨by simp [hc], ?_⟩
        intro hm
        simp only [List.drop_succ_cons, List.drop_zero] at hm
        have h2 : ∀ u, lastBraceIdx u = none → '\x7d' ∉ u := by
          intro u
          induction u with
          | nil => intro _ hm2; simp at hm2
          | cons d u2 ih2 =>
            intro hu hm2
            rw [lastBraceIdx] at hu
            cases hu2 : lastBraceIdx u2 with
            | some k => rw [hu2] at hu; simp at hu
            | none =>
              rw [hu2] at hu
              rcases List.mem_cons.mp hm2 with he | hm3
              · rw [← he] at hu
                simp at hu
              · exact ih2 hu2 hm3
        exact h2 t ht hm
      · rw [if_neg hc] at h
        simp at h

/-- The brace search lands on the first opening brace that has a
closing brace after it, and captures through the index `lastBraceIdx`
found. -/
theorem braceSearch_no_brace_head (pre rest : List Char) (j : Nat)
    (hpre : '\x7b' ∉ pre) (hj : lastBraceIdx rest = some j) :
    braceSearch (pre ++ '\x7b' :: rest) = some ('\x7b' :: rest.take (j + 1)) := by
  induction pre with
  | nil =>
    rw [List.nil_append, braceSearch, if_pos rfl, hj]
  | cons c p ih =>
    have hc : ¬(c = '\x7b') := fun e => hpre (by rw [e]; simp)
    rw [List.cons_append, braceSearch, if_neg hc]
    exact ih (fun hm => hpre (by simp [hm]))

/-- Claim C4: with no fenced block and at least one `\x7b` with a
`\x7d` after it, `_extract_json` parses exactly the span from the first
such `\x7b` through the last `\x7d` of the reply — the greedy match,
which covers every later object. -/
theorem extractJson_brace_span (pre rest : List Char) (j : Nat)
    (hf : findFencedBlock (pre ++ '\x7b' :: rest) = none)
    (hpre : '\x7b' ∉ pre) (hj : lastBraceIdx rest = some j) :
    extractJsonBody (pre ++ '\x7b' :: rest) =
      loads ('\x7b' :: rest.take (j + 1)) ∧
    (rest.drop j).head? = some '\x7d' ∧
    '\x7d' ∉ rest.drop (j + 1) := by
  obtain ⟨hh, hlast⟩ := lastBraceIdx_spec rest j hj
  refine ⟨?_, hh, hlast⟩
  rw [extractJsonBody.eq_def, hf, braceSearch_no_brace_head pre rest j hpre hj]

/-- A reply holding two top-level objects: the captured span runs from
the first `\x7b` to the final `\x7d`, across both. -/
theorem extractJson_brace_span_witness :
    findFencedBlock ('a' :: ' ' :: '\x7b' :: '1' :: '\x7d' :: ' ' ::
      '\x7b' :: '2' :: '\x7d' :: []) = none ∧
    '\x7b' ∉ ['a', ' '] ∧
    lastBraceIdx ['1', '\x7d', ' ', '\x7b', '2', '\x7d'] = some 5 ∧
    extractJsonBody ('a' :: ' ' :: '\x7b' :: '1' :: '\x7d' :: ' ' ::
      '\x7b' :: '2' :: '\x7d' :: []) =
      loads ('\x7b' :: '1' :: '\x7d' :: ' ' :: '\x7b' :: '2' :: '\x7d' :: []) :=
  ⟨by decide, by decide, by decide,
   have h := extractJson_brace_span ['a', ' ']
     ['1', '\x7d', ' ', '\x7b', '2', '\x7d'] 5 (by decide) (by decide) (by decide)
   h.1⟩

/-- Claim C5: missing-field defaulting in the two cited consumers.
A structured reply that is an object without the expected keys — the
fallback record among them — makes the planning step return the
query-derived topic defaults (and still record the plan), and makes
the formatting step fill every report section with its documented
default; neither step raises. -/
theorem steps_default_missing_fields (ps ps2 : List (List Char × JValue))
    (q depth r r2 : List Char) (t : Nat) (st : AgentState) (syn : RSynthesis)
    (hx : extractJson r = .obj ps)
    (h1 : alookup ps (("main_query").toList) = none)
    (h2 : alookup ps (("subtopics").toList) = none)
    (h3 : alookup ps (("keywords").toList) = none)
    (h4 : alookup ps (("scope").toList) = none)
    (hx2 : extractJson r2 = .obj ps2)
    (k1 : alookup ps2 (("title").toList) = none)
    (k2 : alookup ps2 (("executive_summary").toList) = none)
    (k3 : alookup ps2 (("introduction").toList) = none)
    (k4 : alookup ps2 (("methodology").toList) = none)
    (k5 : alookup ps2 (("key_findings").toList) = none)
    (k6 : alookup ps2 (("discussion").toList) = none)
    (k7 : alookup ps2 (("research_gaps").toList) = none)
    (k8 : alookup ps2 (("future_directions").toList) = none)
    (k9 : alookup ps2 (("conclusion").toList) = none)
    (k10 : alookup ps2 (("bibliography").toList) = none) :
    (createPlanStep (.ok r) q depth t st).1 =
      ⟨topicId t, .str q, planDefaultSubtopics q,
        .arr ((splitWs q).map .str), defaultScope⟩ ∧
    (createPlanStep (.ok r) q depth t st).2.research_plans =
      dictUpdG st.research_plans (topicId t)
        (PlanRecord.mk (.obj ps) (clockStr t)
          ⟨topicId t, .str q, planDefaultSubtopics q,
            .arr ((splitWs q).map .str), defaultScope⟩) ∧
    (createPlanStep (.ok r) q depth t st).2.documents = st.documents ∧
    (createPlanStep (.ok r) q depth t st).2.findings = st.findings ∧
    (createPlanStep (.ok r) q depth t st).2.syntheses = st.syntheses ∧
    formatStep (.ok r2) syn t st =
      some ⟨syn.title, syn.summary,
        .str (("Introduction to ").toList ++ pyStr syn.title),
        .str (("Methodology section").toList),
        .str (("Key findings section").toList),
        .str (("Discussion section").toList),
        .str (("Research gaps section").toList),
        .str (("Future directions section").toList),
        .str (("Conclusion section").toList),
        syn.bibliography,
        ⟨syn.title, syn.document_coverage.length, syn.key_findings.length,
         clockStr t, syn.id⟩⟩ := by
  refine ⟨?_, ?_, ?_, ?_, ?_, ?_⟩ <;>
    simp only [createPlanStep, formatStep, hx, hx2, jgetD, h1, h2, h3, h4,
      k1, k2, k3, k4, k5, k6, k7, k8, k9, k10, Option.getD]

/-- Both cited steps on the fallback record produced by an
unparseable reply. -/
theorem steps_default_missing_fields_witness :
    extractJson (("zzz").toList) =
      .obj [(("error").toList, .str (("Failed to parse JSON").toList)),
            (("raw_text").toList, .str (("zzz").toList))] ∧
    (createPlanStep (.ok (("zzz").toList)) (("alpha and beta").toList)
        (("d").toList) 5 emptyState).1 =
      ⟨("topic_5").toList, .str (("alpha and beta").toList),
       .arr [.str (("alpha").toList), .str (("beta").toList)],
       .arr [.str (("alpha").toList), .str (("and").toList),
             .str (("beta").toList)], defaultScope⟩ ∧
    formatStep (.ok (("zzz").toList))
        ⟨['S'], .str ['T'], .str ("Sm").toList, [], [], .arr [], .arr [], .arr []⟩
        5 emptyState =
      some ⟨.str ['T'], .str ("Sm").toList,
        .str (("Introduction to T").toList),
        .str (("Methodology section").toList),
        .str (("Key findings section").toList),
        .str (("Discussion section").toList),
        .str (("Research gaps section").toList),
        .str (("Future directions section").toList),
        .str (("Conclusion section").toList),
        .arr [], ⟨.str ['T'], 0, 0, ['5'], ['S']⟩⟩ := by
  have h := steps_default_missing_fields
    [(("error").toList, .str (("Failed to parse JSON").toList)),
     (("raw_text").toList, .str (("zzz").toList))]
    [(("error").toList, .str (("Failed to parse JSON").toList)),
     (("raw_text").toList, .str (("zzz").toList))]
    (("alpha and beta").toList) (("d").toList) (("zzz").toList) (("zzz").toList)
    5 emptyState
    ⟨['S'], .str ['T'], .str ("Sm").toList, [], [], .arr [], .arr [], .arr []⟩
    (by decide) (by decide) (by decide) (by decide) (by decide) (by decide)
    (by decide) (by decide) (by decide) (by decide) (by decide) (by decide)
    (by decide) (by decide) (by decide) (by decide)
  refine ⟨by decide, ?_, ?_⟩
  · rw [h.1]
    decide
  · rw [h.2.2.2.2.2]
    decide

/-- Claim C6 (amended): a failing service call is caught at the
boundary of five of the six steps unconditionally — fallback topic,
empty document list, fallback finding, default synthesis, unmodified
input synthesis — and at the formatting step whenever the synthesis's
`gaps_identified` and `future_directions` are iterable, its handler
itself iterating both. -/
theorem pipeline_service_failure_fallbacks (q depth : List Char) (t : Nat)
    (st : AgentState) (topic : RTopic) (docs : List RDoc)
    (findings : List RFinding) (syn : RSynthesis) (gapsL futL : List JValue)
    (hd : docs ≠ [])
    (hg : pyIter syn.gaps_identified = some gapsL)
    (hf : pyIter syn.future_directions = some futL) :
    createPlanStep (.error ()) q depth t st = (fallbackTopic q t, st) ∧
    retrieveStep (.error ()) st = ([], st) ∧
    extractInfoStep (fun _ => .error ()) docs topic t st =
      ([fallbackFinding topic docs t], st) ∧
    synthesizeStep (.error ()) findings topic t st =
      (defaultSynthesis topic t, st) ∧
    insightsStep (.error ()) syn topic st = (syn, st) ∧
    (formatStep (.error ()) syn t st = formatHandler syn t ∧
      (formatHandler syn t).isSome = true) := by
  refine ⟨rfl, rfl, ?_, ?_, rfl, rfl, ?_⟩
  · cases docs with
    | nil => exact absurd rfl hd
    | cons d rest =>
      cases hpj : pyJoin [',', ' '] topic.subtopics with
      | none => simp [extractInfoStep, extractDocsLoop, hpj]
      | some j => simp [extractInfoStep, extractDocsLoop, hpj]
  · rw [synthesizeStep.eq_def]
    split_ifs <;> try rfl
    cases hpj : pyJoin [',', ' '] topic.subtopics <;> simp [hpj]
  · simp [formatHandler, hg, hf]

/-- Claim C6 counterexample: the formatting step's own fallback path
raises.  With a synthesis whose `gaps_identified` is the (valid JSON)
number `5`, a failed service call reaches the `except` arm, whose
`"\n".join(f"- \x7bgap\x7d" for gap in ...)` raises `TypeError`: the
exception escapes the step instead of producing the basic output. -/
theorem formatStep_handler_raises :
    formatStep (.error ())
      ⟨['S'], .str ['T'], .str ['m'], [], [], .num 5, .arr [], .arr []⟩
      5 emptyState = none := by decide

/-- Service failure at each boundary, on concrete inputs. -/
theorem pipeline_service_failure_fallbacks_witness :
    createPlanStep (.error ()) ['q'] ['d'] 5 emptyState =
      (fallbackTopic ['q'] 5, emptyState) ∧
    retrieveStep (.error ()) emptyState = ([], emptyState) ∧
    extractInfoStep (fun _ => .error ())
      [⟨("d1").toList, ("DT").toList, [("A1").toList], ("2020").toList,
        ("Src").toList, ['c'], ['a'], none, none, none⟩]
      ⟨("tp").toList, .str ['Q'], .arr [.str ("s1").toList], .arr [.str ['k']],
       .obj []⟩ 5 emptyState =
      ([fallbackFinding
          ⟨("tp").toList, .str ['Q'], .arr [.str ("s1").toList],
           .arr [.str ['k']], .obj []⟩
          [⟨("d1").toList, ("DT").toList, [("A1").toList], ("2020").toList,
            ("Src").toList, ['c'], ['a'], none, none, none⟩] 5], emptyState) ∧
    synthesizeStep (.error ()) []
      ⟨("tp").toList, .str ['Q'], .arr [.str ("s1").toList], .arr [.str ['k']],
       .obj []⟩ 5 emptyState =
      (defaultSynthesis
        ⟨("tp").toList, .str ['Q'], .arr [.str ("s1").toList],
         .arr [.str ['k']], .obj []⟩ 5, emptyState) ∧
    insightsStep (.error ())
      ⟨['S'], .str ['T'], .str ("Sm").toList, [], [], .arr [.str ("g1").toList],
       .arr [.str ("fd").toList], .arr []⟩
      ⟨("tp").toList, .str ['Q'], .arr [.str ("s1").toList], .arr [.str ['k']],
       .obj []⟩ emptyState =
      (⟨['S'], .str ['T'], .str ("Sm").toList, [], [], .arr [.str ("g1").toList],
        .arr [.str ("fd").toList], .arr []⟩, emptyState) ∧
    formatStep (.error ())
      ⟨['S'], .str ['T'], .str ("Sm").toList, [], [], .arr [.str ("g1").toList],
       .arr [.str ("fd").toList], .arr []⟩ 5 emptyState =
      formatHandler
        ⟨['S'], .str ['T'], .str ("Sm").toList, [], [], .arr [.str ("g1").toList],
         .arr [.str ("fd").toList], .arr []⟩ 5 := by
  have h := pipeline_service_failure_fallbacks ['q'] ['d'] 5 emptyState
    ⟨("tp").toList, .str ['Q'], .arr [.str ("s1").toList], .arr [.str ['k']],
     .obj []⟩
    [⟨("d1").toList, ("DT").toList, [("A1").toList], ("2020").toList,
      ("Src").toList, ['c'], ['a'], none, none, none⟩]
    []
    ⟨['S'], .str ['T'], .str ("Sm").toList, [], [], .arr [.str ("g1").toList],
     .arr [.str ("fd").toList], .arr []⟩
    [.str ("g1").toList] [.str ("fd").toList]
    (by decide) (by decide) (by decide)
  exact ⟨h.1, h.2.1, h.2.2.1, h.2.2.2.1, h.2.2.2.2.1, h.2.2.2.2.2.1⟩

/-! ### Registry growth (claim C8) -/

theorem alookupG_dictUpdG {α : Type} (m : List (List Char × α))
    (k k2 : List Char) (v : α) :
    alookupG (dictUpdG m k2 v) k = if k2 = k then some v else alookupG m k := by
  induction m with
  | nil => rfl
  | cons p t ih =>
    obtain ⟨k3, v3⟩ := p
    by_cases h1 : k3 = k2
    · subst h1
      by_cases h2 : k3 = k
      · subst h2
        simp [dictUpdG, alookupG]
      · simp [dictUpdG, alookupG, h2]
    · by_cases h2 : k3 = k
      · subst h2
        have h3 : ¬(k2 = k3) := fun e => h1 e.symm
        simp [dictUpdG, alookupG, h1, h3]
      · simp [dictUpdG, alookupG, h1, h2, ih]

theorem keysMono_dictUpdG {α : Type} (m : List (List Char × α))
    (k k2 : List Char) (v : α) (h : (alookupG m k).isSome = true) :
    (alookupG (dictUpdG m k2 v) k).isSome = true := by
  rw [alookupG_dictUpdG]
  split_ifs with h2
  · rfl
  · exact h

/-- No registry key is ever deleted: every key present before is
present after. -/
def RegMono (a b : AgentState) : Prop :=
  (∀ k, (alookupG a.documents k).isSome = true →
    (alookupG b.documents k).isSome = true) ∧
  (∀ k, (alookupG a.findings k).isSome = true →
    (alookupG b.findings k).isSome = true) ∧
  (∀ k, (alookupG a.research_plans k).isSome = true →
    (alookupG b.research_plans k).isSome = true) ∧
  (∀ k, (alookupG a.syntheses k).isSome = true →
    (alookupG b.syntheses k).isSome = true)

theorem regMono_refl (a : AgentState) : RegMono a a :=
  ⟨fun _ h => h, fun _ h => h, fun _ h => h, fun _ h => h⟩

theorem regMono_trans {a b c : AgentState} (h1 : RegMono a b)
    (h2 : RegMono b c) : RegMono a c :=
  ⟨fun k h => h2.1 k (h1.1 k h), fun k h => h2.2.1 k (h1.2.1 k h),
   fun k h => h2.2.2.1 k (h1.2.2.1 k h), fun k h => h2.2.2.2 k (h1.2.2.2 k h)⟩

theorem regMono_upd_findings (st : AgentState) (k : List Char) (v : RFinding) :
    RegMono st { st with findings := dictUpdG st.findings k v } :=
  ⟨fun _ h => h, fun k2 h => keysMono_dictUpdG _ k2 k v h,
   fun _ h => h, fun _ h => h⟩

theorem regMono_upd_plans (st : AgentState) (k : List Char) (v : PlanRecord) :
    RegMono st { st with research_plans := dictUpdG st.research_plans k v } :=
  ⟨fun _ h => h, fun _ h => h, fun k2 h => keysMono_dictUpdG _ k2 k v h,
   fun _ h => h⟩

theorem regMono_upd_syntheses (st : AgentState) (k : List Char)
    (v : RSynthesis) :
    RegMono st { st with syntheses := dictUpdG st.syntheses k v } :=
  ⟨fun _ h => h, fun _ h => h, fun _ h => h,
   fun k2 h => keysMono_dictUpdG _ k2 k v h⟩

theorem createPlanStep_mono (svcRes : Except Unit (List Char))
    (q depth : List Char) (t : Nat) (st : AgentState) :
    RegMono st (createPlanStep svcRes q depth t st).2 := by
  cases svcRes with
  | error e => exact regMono_refl st
  | ok r =>
    cases hej : extractJson r <;> simp only [createPlanStep, hej] <;>
      first
        | exact regMono_upd_plans st _ _
        | exact regMono_refl st

theorem docsFold_mono (docs : List RDoc) :
    ∀ m k, (alookupG m k).isSome = true →
      (alookupG (docs.foldl (fun m2 d => dictUpdG m2 d.id d) m) k).isSome = true := by
  induction docs with
  | nil => intro m k h; exact h
  | cons d rest ih =>
    intro m k h
    exact ih (dictUpdG m d.id d) k (keysMono_dictUpdG m k d.id d h)

theorem retrieveStep_mono (docsRes : Except Unit (List RDoc))
    (st : AgentState) : RegMono st (retrieveStep docsRes st).2 := by
  cases docsRes with
  | error e => exact regMono_refl st
  | ok docs =>
    exact ⟨fun k h => docsFold_mono docs st.documents k h, fun _ h => h,
      fun _ h => h, fun _ h => h⟩

def exSt (e : Except AgentState (List RFinding × AgentState)) : AgentState :=
  match e with
  | .ok p => p.2
  | .error s => s

theorem goFindings_mono (topic : RTopic) (d : RDoc) :
    ∀ items i acc st, RegMono st (exSt (goFindings topic d items i acc st)) := by
  intro items
  induction items with
  | nil => intro i acc st; exact regMono_refl st
  | cons fdv rest ih =>
    intro i acc st
    cases fdv with
    | obj fd =>
      show RegMono st (exSt (match tagsComp topic fd with
        | none => .error st
        | some tags => goFindings topic d rest (i + 1) (acc ++ [_]) _))
      cases htc : tagsComp topic fd with
      | none => exact regMono_refl st
      | some tags =>
        exact regMono_trans (regMono_upd_findings st _ _) (ih (i + 1) _ _)
    | null => exact regMono_refl st
    | bool b => exact regMono_refl st
    | num n => exact regMono_refl st
    | fnum m e => exact regMono_refl st
    | nan => exact regMono_refl st
    | inf b => exact regMono_refl st
    | str s2 => exact regMono_refl st
    | arr xs => exact regMono_refl st

theorem extractOneDoc_mono (topic : RTopic) (d : RDoc) (reply : List Char)
    (acc : List RFinding) (st : AgentState) :
    RegMono st (exSt (extractOneDoc topic d reply acc st)) := by
  rw [extractOneDoc.eq_def]
  cases hej : extractJson reply with
  | obj ps =>
    cases hit : pyIter (if pyTruthy (jgetD ps (("key_findings").toList) (.arr []))
        then jgetD ps (("key_findings").toList) (.arr [])
        else defaultKeyFindings topic) with
    | none => simp only [hit]; exact regMono_refl st
    | some items => simp only [hit]; exact goFindings_mono topic d items 0 acc st
  | null => exact regMono_refl st
  | bool b => exact regMono_refl st
  | num n => exact regMono_refl st
  | fnum m e => exact regMono_refl st
  | nan => exact regMono_refl st
  | inf b => exact regMono_refl st
  | str s2 => exact regMono_refl st
  | arr xs => exact regMono_refl st

theorem extractDocsLoop_mono (svc : Nat → Except Unit (List Char))
    (topic : RTopic) :
    ∀ docs ix acc st, RegMono st (exSt (extractDocsLoop svc topic docs ix acc st)) := by
  intro docs
  induction docs with
  | nil => intro ix acc st; exact regMono_refl st
  | cons d rest ih =>
    intro ix acc st
    show RegMono st (exSt (match pyJoin [',', ' '] topic.subtopics with
      | none => .error st
      | some _ => match svc ix with
        | .error _ => .error st
        | .ok reply => match extractOneDoc topic d reply acc st with
          | .error st2 => .error st2
          | .ok (acc2, st2) => extractDocsLoop svc topic rest (ix + 1) acc2 st2))
    cases pyJoin [',', ' '] topic.subtopics with
    | none => exact regMono_refl st
    | some j =>
      cases svc ix with
      | error e => exact regMono_refl st
      | ok reply =>
        have h1 := extractOneDoc_mono topic d reply acc st
        show RegMono st (exSt (match extractOneDoc topic d reply acc st with
          | .error st2 => .error st2
          | .ok (acc2, st2) => extractDocsLoop svc topic rest (ix + 1) acc2 st2))
        cases hod : extractOneDoc topic d reply acc st with
        | error st2 =>
          rw [hod] at h1
          exact h1
        | ok p =>
          obtain ⟨acc2, st2⟩ := p
          rw [hod] at h1
          exact regMono_trans h1 (ih (ix + 1) acc2 st2)

theorem extractInfoStep_mono (svc : Nat → Except Unit (List Char))
    (docs : List RDoc) (topic : RTopic) (t : Nat) (st : AgentState) :
    RegMono st (extractInfoStep svc docs topic t st).2 := by
  rw [extractInfoStep.eq_def]
  split_ifs with h1
  · exact regMono_refl st
  · have h2 := extractDocsLoop_mono svc topic docs 0 [] st
    show RegMono st (match extractDocsLoop svc topic docs 0 [] st with
      | .ok (fs, st2) => (fs, st2)
      | .error st2 => ([fallbackFinding topic docs t], st2)).2
    cases hdl : extractDocsLoop svc topic docs 0 [] st with
    | error st2 =>
      rw [hdl] at h2
      exact h2
    | ok p =>
      obtain ⟨fs, st2⟩ := p
      rw [hdl] at h2
      exact h2

theorem synthesizeStep_mono (svcRes : Except Unit (List Char))
    (findings : List RFinding) (topic : RTopic) (t : Nat) (st : AgentState) :
    RegMono st (synthesizeStep svcRes findings topic t st).2 := by
  rw [synthesizeStep.eq_def]
  repeat
    first
      | exact regMono_refl st
      | exact regMono_upd_syntheses st _ _
      | split
      | dsimp only

theorem insLoop_mono (cov : List (List Char)) (pre : List Char) (conf : JValue)
    (tags : List JValue) :
    ∀ items i st, RegMono st (insLoop cov pre conf tags items i st).2 := by
  intro items
  induction items with
  | nil => intro i st; exact regMono_refl st
  | cons p rest ih =>
    intro i st
    exact regMono_trans (regMono_upd_findings st _ _) (ih (i + 1) _)

theorem insightsStep_mono (svcRes : Except Unit (List Char))
    (syn : RSynthesis) (topic : RTopic) (st : AgentState) :
    RegMono st (insightsStep svcRes syn topic st).2 := by
  cases svcRes with
  | error e => exact regMono_refl st
  | ok r =>
    cases hej : extractJson r <;> simp only [insightsStep, hej] <;>
      try exact regMono_refl st
    case obj ps =>
      cases pyIter (jgetD ps (("deeper_patterns").toList) (.arr [])) with
      | none => exact regMono_refl st
      | some patL =>
        have h1 := insLoop_mono syn.document_coverage (("pattern_finding_").toList)
          (.fnum 85 (-2)) [.str (("pattern").toList), .str (("insight").toList)]
          patL 0 st
        cases pyIter (jgetD ps (("practical_applications").toList) (.arr [])) with
        | none => exact h1
        | some appL => exact regMono_trans h1 (insLoop_mono _ _ _ _ appL 0 _)

/-- Claim C8 (amended): across one or many operations, the four
registries never lose a key — nothing is deleted or evicted, every
write is a `dict` assignment.  (Append-only with fresh keys fails: see
the counterexample.) -/
theorem conductResearch_registries_monotone (svcPlan : Except Unit (List Char))
    (docsRes : Except Unit (List RDoc)) (svcX : Nat → Except Unit (List Char))
    (svcSyn svcIns svcFmt : Except Unit (List Char)) (q depth : List Char)
    (t : Nat) (st : AgentState) :
    RegMono st (conductResearch svcPlan docsRes svcX svcSyn svcIns svcFmt
      q depth t st).2 := by
  refine regMono_trans (createPlanStep_mono svcPlan q depth t st)
    (regMono_trans (retrieveStep_mono docsRes _)
      (regMono_trans (extractInfoStep_mono svcX _ _ t _)
        (regMono_trans (synthesizeStep_mono svcSyn _ _ t _)
          (insightsStep_mono svcIns _ _ _))))

/-- Claim C8 counterexample: `_generate_insights` stores insight
findings under the fixed keys `pattern_finding_i`; a second run on the
same agent overwrites the first run's entry with a different value. -/
theorem insightsStep_overwrites_fixed_key :
    alookupG [((("pattern_finding_0").toList : List Char),
        (⟨("pattern_finding_0").toList, .str ['X'], [], .num 1, []⟩ : RFinding))]
      (("pattern_finding_0").toList) =
      some ⟨("pattern_finding_0").toList, .str ['X'], [], .num 1, []⟩ ∧
    (insightsStep
      (.ok (dumps (.obj [(("deeper_patterns").toList, .arr [.str ['Y']])])))
      ⟨['S'], .str ['T'], .str ['m'], [], [], .arr [], .arr [], .arr []⟩
      ⟨['p'], .str ['Q'], .arr [], .arr [], .obj []⟩
      ⟨[], [((("pattern_finding_0").toList : List Char),
        (⟨("pattern_finding_0").toList, .str ['X'], [], .num 1, []⟩ : RFinding))],
       [], []⟩).2.findings =
      [(("pattern_finding_0").toList,
        ⟨("pattern_finding_0").toList, .str ['Y'], [], .fnum 85 (-2),
         [.str (("pattern").toList), .str (("insight").toList)]⟩)] ∧
    (⟨("pattern_finding_0").toList, .str ['Y'], [], .fnum 85 (-2),
      [.str (("pattern").toList), .str (("insight").toList)]⟩ : RFinding) ≠
      ⟨("pattern_finding_0").toList, .str ['X'], [], .num 1, []⟩ := by
  refine ⟨by decide, by decide, by decide⟩

/-! ### End to end (claim C7) -/

theorem extractJson_of_body_none (r : List Char)
    (h : extractJsonBody r = none) : extractJson r = fallbackRecord r := by
  rw [extractJson.eq_def, h]

theorem alookupG_cons_self {α : Type} (k : List Char) (v : α)
    (m : List (List Char × α)) : alookupG ((k, v) :: m) k = some v := by
  simp [alookupG]

set_option maxHeartbeats 4000000 in
set_option maxRecDepth 4000 in
/-- Claim C7 (amended): a run on a fresh agent, with one retrieved
document and model replies that all fail to parse (so every field
defaults), produces a report whose `title` is the non-empty
`Research on <query>`, whose `bibliography` is a list, and whose
`metadata.document_count` equals the length of the synthesis step's
`document_coverage`, a duplicate-free list of the referenced document
ids.  (Unconditionally the claim is false: see the counterexample,
the reply can force an empty title.) -/
theorem conductResearch_end_to_end (q depth : List Char) (d : RDoc) (t : Nat)
    (r1 r2 r3 r4 r5 : List Char)
    (h1 : extractJsonBody r1 = none) (h2 : extractJsonBody r2 = none)
    (h3 : extractJsonBody r3 = none) (h4 : extractJsonBody r4 = none)
    (h5 : extractJsonBody r5 = none) :
    ∃ out syn,
      (conductResearch (.ok r1) (.ok [d]) (fun _ => .ok r2) (.ok r3) (.ok r4)
        (.ok r5) q depth t emptyState).1 = some out ∧
      (conductResearch (.ok r1) (.ok [d]) (fun _ => .ok r2) (.ok r3) (.ok r4)
        (.ok r5) q depth t emptyState).2.syntheses = [(synthId t, syn)] ∧
      out.title = .str (("Research on ").toList ++ q) ∧
      (("Research on ").toList ++ q) ≠ [] ∧
      (∃ bs, out.bibliography = .arr bs) ∧
      out.metadata.document_count = syn.document_coverage.length ∧
      syn.document_coverage.Nodup := by
  have he1 : extractJson r1 =
      .obj [(("error").toList, .str (("Failed to parse JSON").toList)),
            (("raw_text").toList, .str (truncRaw r1))] :=
    extractJson_of_body_none r1 h1
  have he2 : extractJson r2 =
      .obj [(("error").toList, .str (("Failed to parse JSON").toList)),
            (("raw_text").toList, .str (truncRaw r2))] :=
    extractJson_of_body_none r2 h2
  have he3 : extractJson r3 =
      .obj [(("error").toList, .str (("Failed to parse JSON").toList)),
            (("raw_text").toList, .str (truncRaw r3))] :=
    extractJson_of_body_none r3 h3
  have he4 : extractJson r4 =
      .obj [(("error").toList, .str (("Failed to parse JSON").toList)),
            (("raw_text").toList, .str (truncRaw r4))] :=
    extractJson_of_body_none r4 h4
  have he5 : extractJson r5 =
      .obj [(("error").toList, .str (("Failed to parse JSON").toList)),
            (("raw_text").toList, .str (truncRaw r5))] :=
    extractJson_of_body_none r5 h5
  obtain ⟨pl1, hs1⟩ : ∃ pl1, createPlanStep (.ok r1) q depth t emptyState =
      (⟨topicId t, .str q, planDefaultSubtopics q, .arr ((splitWs q).map .str),
        defaultScope⟩, ⟨[], [], pl1, []⟩) :=
    ⟨_, by simp only [createPlanStep, he1] <;> rfl⟩
  have hs2 : retrieveStep (.ok [d]) ⟨[], [], pl1, []⟩ =
      ([d], ⟨[(d.id, d)], [], pl1, []⟩) := rfl
  obtain ⟨cc, conf, tags, hs3⟩ : ∃ cc conf tags,
      extractInfoStep (fun _ => .ok r2) [d]
        ⟨topicId t, .str q, planDefaultSubtopics q, .arr ((splitWs q).map .str),
         defaultScope⟩ t ⟨[(d.id, d)], [], pl1, []⟩ =
      ([⟨findingId d.id 0, cc, [d.id], conf, tags⟩],
       ⟨[(d.id, d)],
        [(findingId d.id 0, ⟨findingId d.id 0, cc, [d.id], conf, tags⟩)],
        pl1, []⟩) :=
    ⟨_, _, _, by
      simp only [extractInfoStep, extractDocsLoop, extractOneDoc, he2] <;> rfl⟩
  have hfd : findingsData ⟨[(d.id, d)],
      [(findingId d.id 0, ⟨findingId d.id 0, cc, [d.id], conf, tags⟩)], pl1, []⟩
      [⟨findingId d.id 0, cc, [d.id], conf, tags⟩] =
      [.obj [(("finding").toList, cc),
             (("source").toList, .str d.title),
             (("authors").toList, .str (joinSep [',', ' '] d.authors)),
             (("publication_date").toList, .str d.publication_date),
             (("confidence").toList, conf)]] := by
    simp [findingsData, alookupG]
  have hcov : synthDocIds ⟨[(d.id, d)],
      [(findingId d.id 0, ⟨findingId d.id 0, cc, [d.id], conf, tags⟩)], pl1, []⟩
      [⟨findingId d.id 0, cc, [d.id], conf, tags⟩] = [d.id] := by
    simp [synthDocIds, pyDedup, dedupAux, alookupG]
  obtain ⟨kf, bibl, hs4⟩ : ∃ kf bibl,
      synthesizeStep (.ok r3) [⟨findingId d.id 0, cc, [d.id], conf, tags⟩]
        ⟨topicId t, .str q, planDefaultSubtopics q, .arr ((splitWs q).map .str),
         defaultScope⟩ t
        ⟨[(d.id, d)],
         [(findingId d.id 0, ⟨findingId d.id 0, cc, [d.id], conf, tags⟩)],
         pl1, []⟩ =
      (⟨synthId t, .str (("Research on ").toList ++ q),
        .str (("Summary of research on ").toList ++ q ++ ['.']), kf, [d.id],
        .arr [.str (("Further research needed on ").toList ++ q ++ ['.'])],
        .arr [.str (("Expand the scope of research.").toList)], .arr bibl⟩,
       ⟨[(d.id, d)],
        [(findingId d.id 0, ⟨findingId d.id 0, cc, [d.id], conf, tags⟩)],
        pl1,
        [(synthId t,
          ⟨synthId t, .str (("Research on ").toList ++ q),
           .str (("Summary of research on ").toList ++ q ++ ['.']), kf, [d.id],
           .arr [.str (("Further research needed on ").toList ++ q ++ ['.'])],
           .arr [.str (("Expand the scope of research.").toList)],
           .arr bibl⟩)]⟩) :=
    ⟨_, _, by simp only [synthesizeStep, he3, hfd, hcov] <;> rfl⟩
  have hs5 : insightsStep (.ok r4)
      ⟨synthId t, .str (("Research on ").toList ++ q),
       .str (("Summary of research on ").toList ++ q ++ ['.']), kf, [d.id],
       .arr [.str (("Further research needed on ").toList ++ q ++ ['.'])],
       .arr [.str (("Expand the scope of research.").toList)], .arr bibl⟩
      ⟨topicId t, .str q, planDefaultSubtopics q, .arr ((splitWs q).map .str),
       defaultScope⟩
      ⟨[(d.id, d)],
       [(findingId d.id 0, ⟨findingId d.id 0, cc, [d.id], conf, tags⟩)],
       pl1,
       [(synthId t,
         ⟨synthId t, .str (("Research on ").toList ++ q),
          .str (("Summary of research on ").toList ++ q ++ ['.']), kf, [d.id],
          .arr [.str (("Further research needed on ").toList ++ q ++ ['.'])],
          .arr [.str (("Expand the scope of research.").toList)],
          .arr bibl⟩)]⟩ =
      (⟨synthId t, .str (("Research on ").toList ++ q),
        .str (("Summary of research on ").toList ++ q ++ ['.']),
        kf ++ [] ++ [], [d.id],
        .arr [.str (("Further research needed on ").toList ++ q ++ ['.'])],
        .arr [.str (("Expand the scope of research.").toList)], .arr bibl⟩,
       ⟨[(d.id, d)],
        [(findingId d.id 0, ⟨findingId d.id 0, cc, [d.id], conf, tags⟩)],
        pl1,
        [(synthId t,
          ⟨synthId t, .str (("Research on ").toList ++ q),
           .str (("Summary of research on ").toList ++ q ++ ['.']), kf, [d.id],
           .arr [.str (("Further research needed on ").toList ++ q ++ ['.'])],
           .arr [.str (("Expand the scope of research.").toList)],
           .arr bibl⟩)]⟩) := by
    simp only [insightsStep, he4] <;> rfl
  have hs6 : formatStep (.ok r5)
      ⟨synthId t, .str (("Research on ").toList ++ q),
       .str (("Summary of research on ").toList ++ q ++ ['.']),
       kf ++ [] ++ [], [d.id],
       .arr [.str (("Further research needed on ").toList ++ q ++ ['.'])],
       .arr [.str (("Expand the scope of research.").toList)], .arr bibl⟩ t
      ⟨[(d.id, d)],
       [(findingId d.id 0, ⟨findingId d.id 0, cc, [d.id], conf, tags⟩)],
       pl1,
       [(synthId t,
         ⟨synthId t, .str (("Research on ").toList ++ q),
          .str (("Summary of research on ").toList ++ q ++ ['.']), kf, [d.id],
          .arr [.str (("Further research needed on ").toList ++ q ++ ['.'])],
          .arr [.str (("Expand the scope of research.").toList)],
          .arr bibl⟩)]⟩ =
      some ⟨.str (("Research on ").toList ++ q),
        .str (("Summary of research on ").toList ++ q ++ ['.']),
        .str (("Introduction to ").toList ++ (("Research on ").toList ++ q)),
        .str (("Methodology section").toList),
        .str (("Key findings section").toList),
        .str (("Discussion section").toList),
        .str (("Research gaps section").toList),
        .str (("Future directions section").toList),
        .str (("Conclusion section").toList), .arr bibl,
        ⟨.str (("Research on ").toList ++ q), ([d.id] : List (List Char)).length,
         (kf ++ [] ++ []).length, clockStr t, synthId t⟩⟩ := by
    simp only [formatStep, he5] <;> rfl
  refine ⟨⟨.str (("Research on ").toList ++ q),
      .str (("Summary of research on ").toList ++ q ++ ['.']),
      .str (("Introduction to ").toList ++ (("Research on ").toList ++ q)),
      .str (("Methodology section").toList),
      .str (("Key findings section").toList),
      .str (("Discussion section").toList),
      .str (("Research gaps section").toList),
      .str (("Future directions section").toList),
      .str (("Conclusion section").toList), .arr bibl,
      ⟨.str (("Research on ").toList ++ q), ([d.id] : List (List Char)).length,
       (kf ++ [] ++ []).length, clockStr t, synthId t⟩⟩,
    ⟨synthId t, .str (("Research on ").toList ++ q),
     .str (("Summary of research on ").toList ++ q ++ ['.']), kf, [d.id],
     .arr [.str (("Further research needed on ").toList ++ q ++ ['.'])],
     .arr [.str (("Expand the scope of research.").toList)], .arr bibl⟩,
    ?_, ?_, rfl, by simp, ⟨bibl, rfl⟩, rfl, by simp⟩
  · simp only [conductResearch, hs1, hs2, hs3, hs4, hs5, hs6]
  · simp only [conductResearch, hs1, hs2, hs3, hs4, hs5, hs6]

set_option maxRecDepth 10000 in
/-- Claim C7 counterexample: the formatting reply may carry an empty
`"title"`, and the final report's `title` is then the empty string —
the unconditional non-emptiness of the claim fails. -/
theorem conductResearch_empty_title :
    ((conductResearch (.ok (("zzz").toList))
        (.ok [⟨("d1").toList, ("DT").toList, [("A").toList], ("2020").toList,
          ("S").toList, ['c'], ['a'], none, none, none⟩])
        (fun _ => .ok (("zzz").toList)) (.ok (("zzz").toList))
        (.ok (("zzz").toList))
        (.ok (dumps (.obj [(("title").toList, .str [])])))
        ['a'] ['d'] 5 emptyState).1).map FinalOutput.title =
      some (.str []) := by
  decide

set_option maxRecDepth 10000 in
/-- End-to-end defaults on a concrete run. -/
theorem conductResearch_end_to_end_witness :
    ∃ out syn,
      (conductResearch (.ok (("zzz").toList))
        (.ok [⟨("d1").toList, ("DT").toList, [("A").toList], ("2020").toList,
          ("S").toList, ['c'], ['a'], none, none, none⟩])
        (fun _ => .ok (("zzz").toList)) (.ok (("zzz").toList))
        (.ok (("zzz").toList)) (.ok (("zzz").toList))
        (("alpha and beta").toList) ['d'] 5 emptyState).1 = some out ∧
      (conductResearch (.ok (("zzz").toList))
        (.ok [⟨("d1").toList, ("DT").toList, [("A").toList], ("2020").toList,
          ("S").toList, ['c'], ['a'], none, none, none⟩])
        (fun _ => .ok (("zzz").toList)) (.ok (("zzz").toList))
        (.ok (("zzz").toList)) (.ok (("zzz").toList))
        (("alpha and beta").toList) ['d'] 5 emptyState).2.syntheses =
        [(synthId 5, syn)] ∧
      out.title = .str (("Research on ").toList ++ ("alpha and beta").toList) ∧
      (("Research on ").toList ++ ("alpha and beta").toList) ≠ [] ∧
      (∃ bs, out.bibliography = .arr bs) ∧
      out.metadata.document_count = syn.document_coverage.length ∧
      syn.document_coverage.Nodup :=
  conductResearch_end_to_end (("alpha and beta").toList) ['d']
    ⟨("d1").toList, ("DT").toList, [("A").toList], ("2020").toList,
     ("S").toList, ['c'], ['a'], none, none, none⟩ 5
    (("zzz").toList) (("zzz").toList) (("zzz").toList) (("zzz").toList)
    (("zzz").toList)
    (by decide) (by decide) (by decide) (by decide) (by decide)

end DeepResearch